import Mathlib

/-!
# Verification of the twisty-puzzle engine

A shallow embedding of the core of the `rubiks-cube-app` repository:

* the cube's piece model and 90°-quantized rotation (`src/js/puzzles/cube/CubeConstants.js`,
  exact rational arithmetic, since the source rotation is a sign-swap on two coordinates);
* the pyraminx and megaminx piece models and their axis-angle rotations
  (`src/js/puzzles/pyraminx/PyraminxPuzzle.js`, `src/js/puzzles/megaminx/MegaminxPuzzle.js`,
  over exact reals with `Real.cos`/`Real.sin`);
* the generic animation queue (`AnimationQueue` in the engine sources);
* the cube trefoil view's circle-circle intersection and the majority-vote arc
  correction (`src/js/puzzles/cube/CubeTrefoilView.js`, `src/static/js/main.js`).

Floating-point arithmetic of the source is modelled by exact arithmetic (ℚ where the
source computes exactly, ℝ where it uses trigonometry), so every "within epsilon"
statement of the specification is settled by an exact equality.
-/

/-! ## Exact 3D vectors over the reals (pyraminx / megaminx geometry) -/

/-- A 3D vector with real components, the model of a JS `[x, y, z]` array. -/
structure V3 where
  x : ℝ
  y : ℝ
  z : ℝ

namespace V3

@[ext] theorem ext3 {u v : V3} (hx : u.x = v.x) (hy : u.y = v.y) (hz : u.z = v.z) :
    u = v := by
  cases u; cases v; simp_all

/-- Dot product of two vectors (`dot3` in `MegaminxConstants.js`). -/
def dot (u v : V3) : ℝ := u.x * v.x + u.y * v.y + u.z * v.z

/-- Cross product of two vectors. -/
def cross (u v : V3) : V3 :=
  ⟨u.y * v.z - u.z * v.y, u.z * v.x - u.x * v.z, u.x * v.y - u.y * v.x⟩

/-- Squared Euclidean norm. -/
def normSq (u : V3) : ℝ := u.x ^ 2 + u.y ^ 2 + u.z ^ 2

/-- Componentwise difference. -/
def sub (u v : V3) : V3 := ⟨u.x - v.x, u.y - v.y, u.z - v.z⟩

/-- Squared distance between two points. -/
def dist2 (u v : V3) : ℝ := (u.sub v).normSq

/-- Euclidean distance between two points. -/
noncomputable def dist (u v : V3) : ℝ := Real.sqrt (u.dist2 v)

end V3

/-- Modelled from the spec: the "arbitrary-axis (Rodrigues) rotation" helper
`rotatePointAroundAxis` of `src/js/engine/math.js` is imported by the pyraminx and
megaminx `applyRotation` but is absent from the provided sources; the spec (§2, §4.2)
describes it as the general axis-angle (Rodrigues) rotation applied to every vertex
and the centroid. It rotates `v` by angle `θ` about the unit axis `k` through the
origin: `v cos θ + (k × v) sin θ + k (k ⬝ v)(1 − cos θ)`. -/
noncomputable def rotatePointAroundAxis (v k : V3) (θ : ℝ) : V3 :=
  let c := Real.cos θ
  let s := Real.sin θ
  ⟨c * v.x + s * (k.cross v).x + (1 - c) * (k.dot v) * k.x,
   c * v.y + s * (k.cross v).y + (1 - c) * (k.dot v) * k.y,
   c * v.z + s * (k.cross v).z + (1 - c) * (k.dot v) * k.z⟩

/-! ## Cube (`CubeConstants.js` / `CubePuzzle`), exact rational model -/

/-- A cube coordinate triple, the model of `[x, y, z]` with exact rationals
(the cube's rotation and sticker logic only ever negates and swaps coordinates). -/
abbrev Vec3Q := Fin 3 → ℚ

/-- A cube sticker record `{faceId, u, v}` from `createPieces`. -/
structure CubeSticker where
  faceId : ℕ
  u : ℕ
  v : ℕ

/-- A cube piece (`cubie`): centroid `m`, the 8 box corners `p`, and the 6-slot
sticker table. -/
structure CubePiece where
  m : Vec3Q
  p : Fin 8 → Vec3Q
  stickers : Fin 6 → Option CubeSticker

/-- A cube move descriptor `{axis, layer, dir}`. -/
structure CubeMove where
  axis : Fin 3
  layer : ℚ
  dir : ℚ

/-- The two non-axis coordinates, in ascending order: the JS
`[0,1,2].filter(i => i !== axis)`. -/
def otherAxes : Fin 3 → Fin 3 × Fin 3
  | 0 => (1, 2)
  | 1 => (0, 2)
  | 2 => (0, 1)

/-- The cube's 90°-quantized rotation of one coordinate triple: on the two
non-axis coordinates `(a, b)`, new `a = -b*dir` and new `b = a*dir`
(`CubePuzzle.applyRotation`, inner loop body). -/
def rotQ (axis : Fin 3) (d : ℚ) (v : Vec3Q) : Vec3Q := fun i =>
  if i = (otherAxes axis).1 then -(v (otherAxes axis).2) * d
  else if i = (otherAxes axis).2 then v (otherAxes axis).1 * d
  else v i

/-- The rotated copy of one cube piece: centroid and all 8 corners rotate,
stickers untouched. -/
def cubeRotP (mv : CubeMove) (c : CubePiece) : CubePiece :=
  { c with
    m := rotQ mv.axis mv.dir c.m,
    p := fun j => rotQ mv.axis mv.dir (c.p j) }

/-- One cube piece under `CubePuzzle.applyRotation`: skipped unless
`|m[axis] - layer| ≤ 0.01`, otherwise centroid and all 8 corners rotate. -/
def cubeStep (mv : CubeMove) (c : CubePiece) : CubePiece :=
  if |c.m mv.axis - mv.layer| > 1/100 then c else cubeRotP mv c

/-- `CubePuzzle.applyRotation(pieces, move)`. -/
def CubePuzzle.applyRotation (pieces : List CubePiece) (mv : CubeMove) : List CubePiece :=
  pieces.map (cubeStep mv)

/-- Squared distance between two rational coordinate triples. -/
def dist2Q (u v : Vec3Q) : ℚ := ∑ i : Fin 3, (u i - v i) ^ 2

/-- Euclidean distance between two rational coordinate triples. -/
noncomputable def distQ (u v : Vec3Q) : ℝ := Real.sqrt ((dist2Q u v : ℚ) : ℝ)

/-- `FACE_INFO` of `CubeConstants.js`: face index → (axis, dir). -/
def FACE_INFO : Fin 6 → Fin 3 × ℚ
  | 0 => (1, -1)
  | 1 => (1, 1)
  | 2 => (0, -1)
  | 3 => (0, 1)
  | 4 => (2, 1)
  | 5 => (2, -1)

/-- JS `Math.max` over the 8 corner coordinates (`Math.max(...p.map(v => v[axis]))`). -/
def vmax8 (g : Fin 8 → ℚ) : ℚ :=
  max (g 0) (max (g 1) (max (g 2) (max (g 3) (max (g 4) (max (g 5) (max (g 6) (g 7)))))))

/-- JS `Math.min` over the 8 corner coordinates. -/
def vmin8 (g : Fin 8 → ℚ) : ℚ :=
  min (g 0) (min (g 1) (min (g 2) (min (g 3) (min (g 4) (min (g 5) (min (g 6) (g 7)))))))

/-- The JS uniformity test `l.every(c => c === l[0])` (vacuously true on `[]`,
where `l[0]` is `undefined`). -/
def uniformJS (l : List ℕ) : Prop := ∀ c ∈ l, c = l.headD 0

instance (l : List ℕ) : Decidable (uniformJS l) := by
  unfold uniformJS; infer_instance

/-- The extreme corner coordinate along the requested face's axis
(`Math.max(...p.map(v => v[faceAxis]))` for a positive face direction, `Math.min`
otherwise). -/
def cubeExtreme (pc : CubePiece) (fi : Fin 6) : ℚ :=
  if (FACE_INFO fi).2 > 0 then vmax8 (fun i => pc.p i (FACE_INFO fi).1)
  else vmin8 (fun i => pc.p i (FACE_INFO fi).1)

/-- The corner indices whose coordinate along the face axis is within `0.1` of the
extreme (the candidate sticker face's vertex set). -/
def cubeFaceVerts (pc : CubePiece) (fi : Fin 6) : List (Fin 8) :=
  (List.finRange 8).filter (fun i => |pc.p i (FACE_INFO fi).1 - cubeExtreme pc fi| < 1/10)

/-- `CubePuzzle.getStickerColor(piece, faceIndex, config)`: geometric sticker-color
detection with the defensive fallback policy (returns the requested face index when
the extremal vertex set is not a 4-set or no index-bit split is uniform). -/
def CubePuzzle.getStickerColor (pc : CubePiece) (face : ℕ) (half : ℚ) : Option ℕ :=
  if h6 : face > 5 then none
  else
    if |pc.m (FACE_INFO ⟨face, by omega⟩).1 - (FACE_INFO ⟨face, by omega⟩).2 * half| > 1/100
      then none
    else
      if (cubeFaceVerts pc ⟨face, by omega⟩).length ≠ 4 then some face
      else
        if uniformJS ((cubeFaceVerts pc ⟨face, by omega⟩).map (fun i => i.val / 4)) then
          some (if ((cubeFaceVerts pc ⟨face, by omega⟩).map (fun i => i.val / 4)).headD 0 = 1
            then 3 else 2)
        else
          if uniformJS ((cubeFaceVerts pc ⟨face, by omega⟩).map (fun i => i.val % 4 / 2)) then
            some (if ((cubeFaceVerts pc ⟨face, by omega⟩).map
                (fun i => i.val % 4 / 2)).headD 0 = 1
              then 1 else 0)
          else
            if uniformJS ((cubeFaceVerts pc ⟨face, by omega⟩).map (fun i => i.val % 2)) then
              some (if ((cubeFaceVerts pc ⟨face, by omega⟩).map
                  (fun i => i.val % 2)).headD 0 = 1
                then 4 else 5)
            else some face

/-- A concrete corner-coordinate pattern whose extremal 4-set `{0, 3, 5, 6}` is
uniform under none of the three index-bit splits (used to exercise the defensive
fallback of `getStickerColor`). -/
def patB : Fin 8 → ℚ
  | 0 => 1
  | 1 => 0
  | 2 => 0
  | 3 => 1
  | 4 => 0
  | 5 => 1
  | 6 => 1
  | 7 => 0

/-! ## Pyraminx (`PyraminxPuzzle.js`) -/

/-- A pyraminx piece: centroid `m`, vertex list `p` (6 slots), 8-slot sticker table
(storing the `faceId` of each non-null sticker), the integer barycentric 4-vector,
its class sum `barySum`, and the upright/gap flag. -/
structure PyrPiece where
  m : V3
  p : List V3
  stickers : Fin 8 → Option ℕ
  bary : Fin 4 → ℤ
  barySum : ℤ
  isGap : Bool

/-- A pyraminx move descriptor `{vertex, depth, dir}`; its rotation axis is always
`AXES[vertex]` (`resolveMove` / `generateScramble`). -/
structure PyrMove where
  vertex : Fin 4
  depth : ℤ
  dir : ℤ

/-- The three non-vertex barycentric indices in ascending order:
`[0,1,2,3].filter(i => i !== vertex)`. -/
def pyrOthers : Fin 4 → Fin 4 × Fin 4 × Fin 4
  | 0 => (1, 2, 3)
  | 1 => (0, 2, 3)
  | 2 => (0, 1, 3)
  | 3 => (0, 1, 2)

/-- The exact integer cyclic reassignment of the three non-vertex barycentric
components (`applyRotation`, "Cycle barycentric coords" block): for `dir === 1`
`new[o0] = old[o2], new[o1] = old[o0], new[o2] = old[o1]`, otherwise the reverse
cycle; the `vertex` component is untouched. -/
def cycleBary (vertex : Fin 4) (dir : ℤ) (old : Fin 4 → ℤ) : Fin 4 → ℤ :=
  let o := pyrOthers vertex
  if dir = 1 then fun i =>
    if i = o.1 then old o.2.2
    else if i = o.2.1 then old o.1
    else if i = o.2.2 then old o.2.1
    else old i
  else fun i =>
    if i = o.1 then old o.2.1
    else if i = o.2.1 then old o.2.2
    else if i = o.2.2 then old o.1
    else old i

/-- `PyraminxPuzzle.isPieceInMove`: the barycentric "effective layer" test. -/
def PyraminxPuzzle.isPieceInMove (pc : PyrPiece) (mv : PyrMove) : Prop :=
  pc.barySum - pc.bary mv.vertex + (if pc.isGap then 1 else 0) ≤ mv.depth

instance (pc : PyrPiece) (mv : PyrMove) : Decidable (PyraminxPuzzle.isPieceInMove pc mv) := by
  unfold PyraminxPuzzle.isPieceInMove; infer_instance

/-- The 4 pyraminx rotation axes (`AXES` of `PyraminxConstants.js`): unit vectors
through the parent tetrahedron's vertices, components `±1/√3`. -/
noncomputable def AXES : Fin 4 → V3 :=
  let r := (1 : ℝ) / Real.sqrt 3
  fun v => match v with
  | 0 => ⟨r, r, r⟩
  | 1 => ⟨r, -r, -r⟩
  | 2 => ⟨-r, r, -r⟩
  | 3 => ⟨-r, -r, r⟩

/-- The rotated copy of one pyraminx piece: every vertex and the centroid rotate by
`(2π/3)·dir` about `AXES[vertex]`, and the barycentric coordinates cycle. -/
noncomputable def pyrRotP (mv : PyrMove) (pc : PyrPiece) : PyrPiece :=
  { pc with
    p := pc.p.map (fun v => rotatePointAroundAxis v (AXES mv.vertex) (2 * Real.pi / 3 * mv.dir)),
    m := rotatePointAroundAxis pc.m (AXES mv.vertex) (2 * Real.pi / 3 * mv.dir),
    bary := cycleBary mv.vertex mv.dir pc.bary }

/-- One pyraminx piece under `PyraminxPuzzle.applyRotation`: rotated when the piece
is in the move, untouched otherwise. -/
noncomputable def pyrStep (mv : PyrMove) (pc : PyrPiece) : PyrPiece :=
  if PyraminxPuzzle.isPieceInMove pc mv then pyrRotP mv pc else pc

/-- `PyraminxPuzzle.applyRotation(pieces, move)`. -/
noncomputable def PyraminxPuzzle.applyRotation (pieces : List PyrPiece) (mv : PyrMove) :
    List PyrPiece :=
  pieces.map (pyrStep mv)

/-- `PyraminxPuzzle.getStickerColor(piece, faceIndex)`: a direct table read with a
range guard. -/
def PyraminxPuzzle.getStickerColor (pc : PyrPiece) (face : ℤ) : Option ℕ :=
  if h : 0 ≤ face ∧ face < 8 then pc.stickers ⟨face.toNat, by omega⟩ else none

/-! ## Megaminx (`MegaminxPuzzle.js`) -/

/-- A megaminx piece: centroid `m`, vertex list `p` (45 slots), and the 9-slot
sticker table. -/
structure MegaPiece where
  m : V3
  p : List V3
  stickers : Fin 9 → Option ℕ

/-- A megaminx move descriptor `{face, dir}`; its axis is always `NORMALS[face]`
(`resolveMove` / `generateScramble`). -/
structure MegaMove where
  face : Fin 12
  dir : ℤ

/-- The golden ratio `PHI` of `MegaminxConstants.js`. -/
noncomputable def megaPhi : ℝ := (1 + Real.sqrt 5) / 2

/-- The normalization factor `_NR = √(1 + PHI²)`. -/
noncomputable def megaNR : ℝ := Real.sqrt (1 + megaPhi ^ 2)

/-- The 12 megaminx face normals (`NORMALS`): the icosahedral directions
`(0, ±PHI, ±1)` and cyclic shifts, each divided by `_NR`. -/
noncomputable def NORMALS : Fin 12 → V3 := fun f => match f with
  | 0 => ⟨0, megaPhi / megaNR, 1 / megaNR⟩
  | 1 => ⟨0, megaPhi / megaNR, -1 / megaNR⟩
  | 2 => ⟨0, -megaPhi / megaNR, 1 / megaNR⟩
  | 3 => ⟨0, -megaPhi / megaNR, -1 / megaNR⟩
  | 4 => ⟨megaPhi / megaNR, 1 / megaNR, 0⟩
  | 5 => ⟨megaPhi / megaNR, -1 / megaNR, 0⟩
  | 6 => ⟨-megaPhi / megaNR, 1 / megaNR, 0⟩
  | 7 => ⟨-megaPhi / megaNR, -1 / megaNR, 0⟩
  | 8 => ⟨1 / megaNR, 0, megaPhi / megaNR⟩
  | 9 => ⟨1 / megaNR, 0, -megaPhi / megaNR⟩
  | 10 => ⟨-1 / megaNR, 0, megaPhi / megaNR⟩
  | 11 => ⟨-1 / megaNR, 0, -megaPhi / megaNR⟩

/-- `MegaminxPuzzle.isPieceInMove`: `dot(piece.m, axis) > LAYER_THRESHOLD` with
`LAYER_THRESHOLD = 1.05`. -/
def MegaminxPuzzle.isPieceInMove (pc : MegaPiece) (mv : MegaMove) : Prop :=
  V3.dot pc.m (NORMALS mv.face) > 21/20

noncomputable instance (pc : MegaPiece) (mv : MegaMove) :
    Decidable (MegaminxPuzzle.isPieceInMove pc mv) :=
  Classical.propDecidable _

/-- The rotated copy of one megaminx piece: every vertex and the centroid rotate by
`(2π/5)·dir` about `NORMALS[face]`, stickers untouched. -/
noncomputable def megaRotP (mv : MegaMove) (pc : MegaPiece) : MegaPiece :=
  { pc with
    p := pc.p.map (fun v => rotatePointAroundAxis v (NORMALS mv.face) (2 * Real.pi / 5 * mv.dir)),
    m := rotatePointAroundAxis pc.m (NORMALS mv.face) (2 * Real.pi / 5 * mv.dir) }

/-- One megaminx piece under `MegaminxPuzzle.applyRotation`: rotated when the piece
is in the move, untouched otherwise. -/
noncomputable def megaStep (mv : MegaMove) (pc : MegaPiece) : MegaPiece :=
  if MegaminxPuzzle.isPieceInMove pc mv then megaRotP mv pc else pc

/-- `MegaminxPuzzle.applyRotation(pieces, move)`. -/
noncomputable def MegaminxPuzzle.applyRotation (pieces : List MegaPiece) (mv : MegaMove) :
    List MegaPiece :=
  pieces.map (megaStep mv)

/-- `MegaminxPuzzle.getStickerColor(piece, faceIndex)`: a direct table read with a
range guard (`FACE_COUNT = 9`). -/
def MegaminxPuzzle.getStickerColor (pc : MegaPiece) (face : ℤ) : Option ℕ :=
  if h : 0 ≤ face ∧ face < 9 then pc.stickers ⟨face.toNat, by omega⟩ else none

/-- All pairwise vertex distances inside a pyraminx piece, in a fixed traversal
order. -/
noncomputable def PyrPiece.pairDists (pc : PyrPiece) : List ℝ :=
  pc.p.flatMap (fun u => pc.p.map (fun w => V3.dist u w))

/-- All pairwise vertex distances inside a megaminx piece. -/
noncomputable def MegaPiece.pairDists (pc : MegaPiece) : List ℝ :=
  pc.p.flatMap (fun u => pc.p.map (fun w => V3.dist u w))

/-- All pairwise vertex distances inside a cube piece (8 corners). -/
noncomputable def CubePiece.pairDists (pc : CubePiece) : List ℝ :=
  (List.finRange 8).flatMap (fun j => (List.finRange 8).map (fun k => distQ (pc.p j) (pc.p k)))

/-! ## Animation queue (`AnimationQueue` of the engine) -/

/-- The `AnimationQueue` state: FIFO `queue`, the single in-flight move `current`,
and the timing fields. Times and durations are exact rationals. -/
structure AnimationQueue (M : Type) where
  queue : List M
  current : Option M
  moveStart : ℚ
  moveDuration : ℚ

/-- Everything one `update(time, puzzle, pieces)` call produces: the new queue
state, the new piece store, the list of moves committed during the call (each
commitment is one `puzzle.applyRotation` invocation), and the returned
`{current, progress}` record. -/
structure UpdateResult (M P : Type) where
  state : AnimationQueue M
  pieces : P
  committed : List M
  retCurrent : Option M
  retProgress : ℚ

/-- `AnimationQueue.update(time, puzzle, pieces)`: advance the in-flight move,
committing it through `apply` (the puzzle's `applyRotation`) when
`progress = (time - moveStart)/moveDuration ≥ 1`; then pop the next queued move if
idle; return the in-flight move and `min(progress, 1)`. -/
def AnimationQueue.update {M P : Type} (apply : P → M → P) (time : ℚ)
    (s : AnimationQueue M) (pieces : P) : UpdateResult M P :=
  let phase1 : AnimationQueue M × P × List M × ℚ :=
    match s.current with
    | some mv =>
      let pr := (time - s.moveStart) / s.moveDuration
      if pr ≥ 1 then ({ s with current := none }, apply pieces mv, [mv], 0)
      else (s, pieces, [], pr)
    | none => (s, pieces, [], 0)
  let s1 := phase1.1
  let pieces1 := phase1.2.1
  let committed := phase1.2.2.1
  let pr1 := phase1.2.2.2
  match s1.current, s1.queue with
  | none, m :: rest =>
      ⟨{ s1 with current := some m, queue := rest, moveStart := time },
        pieces1, committed, some m, min 0 1⟩
  | _, _ => ⟨s1, pieces1, committed, s1.current, min pr1 1⟩

/-- `AnimationQueue.queueMove(move)`: append to the FIFO. -/
def AnimationQueue.queueMove {M : Type} (s : AnimationQueue M) (m : M) : AnimationQueue M :=
  { s with queue := s.queue ++ [m] }

/-- `AnimationQueue.clear()`: drop the queue and the in-flight move; nothing is
committed. -/
def AnimationQueue.clear {M : Type} (s : AnimationQueue M) : AnimationQueue M :=
  { s with queue := [], current := none }

/-- The `isAnimating` getter: `current !== null || queue.length > 0`. -/
def AnimationQueue.isAnimating {M : Type} (s : AnimationQueue M) : Bool :=
  s.current.isSome || !s.queue.isEmpty

/-- An externally-driven scheduler event: queue a move, tick at a time, or clear. -/
inductive AQEvent (M : Type) where
  | enq (m : M)
  | upd (t : ℚ)
  | clearEv

/-- A running engine: the queue state, the piece store, the cumulative log of moves
committed through `applyRotation`, and the log of `{current, progress}` records
returned by `update`. -/
structure AQRun (M P : Type) where
  st : AnimationQueue M
  pieces : P
  committedLog : List M
  outs : List (Option M × ℚ)

/-- One scheduler event applied to a running engine. -/
def AQRun.step {M P : Type} (apply : P → M → P) (r : AQRun M P) : AQEvent M → AQRun M P
  | .enq m => { r with st := r.st.queueMove m }
  | .upd t =>
    let u := AnimationQueue.update apply t r.st r.pieces
    ⟨u.state, u.pieces, r.committedLog ++ u.committed, r.outs ++ [(u.retCurrent, u.retProgress)]⟩
  | .clearEv => { r with st := r.st.clear }

/-- Run a whole event trace. -/
def AQRun.run {M P : Type} (apply : P → M → P) (r0 : AQRun M P) (evs : List (AQEvent M)) :
    AQRun M P :=
  evs.foldl (AQRun.step apply) r0

/-- The moves queued by a trace, in order. -/
def enqOf {M : Type} (evs : List (AQEvent M)) : List M :=
  evs.filterMap (fun e => match e with | .enq m => some m | _ => none)

/-- The freshly-built engine around a piece store `p0` (queue empty, idle,
`moveStart = 0`, duration `dur`). -/
def AQRun.start {M P : Type} (p0 : P) (dur : ℚ) : AQRun M P :=
  ⟨⟨[], none, 0, dur⟩, p0, [], []⟩

/-- Lower bounds for all update times in a trace: each `upd t` has `t` at least the
previous update's time (non-decreasing clock) and at least `t0`. -/
def timesLB {M : Type} : ℚ → List (AQEvent M) → Prop
  | _, [] => True
  | t0, (.upd t) :: evs => t0 ≤ t ∧ timesLB t evs
  | t0, _ :: evs => timesLB t0 evs

/-- A trace made only of `queueMove` and `update` calls. -/
def noClear {M : Type} : List (AQEvent M) → Prop
  | [] => True
  | (.clearEv) :: _ => False
  | _ :: evs => noClear evs

/-! ## Trefoil view geometry (`CubeTrefoilView.js` / `main.js`) -/

/-- A 2D canvas point. -/
structure Pt where
  x : ℝ
  y : ℝ

/-- Squared distance between 2D points. -/
def Pt.dist2 (p q : Pt) : ℝ := (p.x - q.x) ^ 2 + (p.y - q.y) ^ 2

/-- The first intersection candidate `p1 = (px + ox, py - oy)` of
`circleIntersection`'s radical-line construction. -/
noncomputable def ciP1 (cx1 cy1 r1 cx2 cy2 r2 : ℝ) : Pt :=
  let dx := cx2 - cx1
  let dy := cy2 - cy1
  let d := Real.sqrt (dx ^ 2 + dy ^ 2)
  let a := (r1 ^ 2 - r2 ^ 2 + d ^ 2) / (2 * d)
  let h := Real.sqrt (max 0 (r1 ^ 2 - a ^ 2))
  ⟨cx1 + a * dx / d + h * dy / d, cy1 + a * dy / d - h * dx / d⟩

/-- The second intersection candidate `p2 = (px - ox, py + oy)`. -/
noncomputable def ciP2 (cx1 cy1 r1 cx2 cy2 r2 : ℝ) : Pt :=
  let dx := cx2 - cx1
  let dy := cy2 - cy1
  let d := Real.sqrt (dx ^ 2 + dy ^ 2)
  let a := (r1 ^ 2 - r2 ^ 2 + d ^ 2) / (2 * d)
  let h := Real.sqrt (max 0 (r1 ^ 2 - a ^ 2))
  ⟨cx1 + a * dx / d - h * dy / d, cy1 + a * dy / d + h * dx / d⟩

/-- `circleIntersection(cx1, cy1, r1, cx2, cy2, r2, pickInner)` with canvas center
`(CX, CY)`: the two-circle radical-line construction, the degenerate
nearly-concentric early return, the `max(0, ·)` clamp under the square root, and
the inner/outer branch pick (the candidate nearer the canvas center for
`pickInner`, the farther one otherwise). -/
noncomputable def circleIntersection (cx1 cy1 r1 cx2 cy2 r2 : ℝ) (pickInner : Bool)
    (CX CY : ℝ) : Pt :=
  let d := Real.sqrt ((cx2 - cx1) ^ 2 + (cy2 - cy1) ^ 2)
  if d < 1/1000 then ⟨cx1, cy1⟩
  else
    let p1 := ciP1 cx1 cy1 r1 cx2 cy2 r2
    let p2 := ciP2 cx1 cy1 r1 cx2 cy2 r2
    let d1 := (p1.x - CX) ^ 2 + (p1.y - CY) ^ 2
    let d2 := (p2.x - CX) ^ 2 + (p2.y - CY) ^ 2
    if pickInner then (if d1 < d2 then p1 else p2) else (if d1 < d2 then p2 else p1)

/-- Square root guarded the way a defensive runtime would flag `Math.sqrt` of a
negative argument (JS would produce `NaN`). -/
noncomputable def sqrtChecked (x : ℝ) : Option ℝ :=
  if x < 0 then none else some (Real.sqrt x)

/-- Division guarded against a zero divisor (JS would produce `Infinity`/`NaN`). -/
noncomputable def divChecked (a b : ℝ) : Option ℝ :=
  if b = 0 then none else some (a / b)

/-- `circleIntersection` with every square root and every division routed through
the guarded primitives: returns `none` exactly when the unguarded code would hit
`Math.sqrt` of a negative number or a division by zero. -/
noncomputable def circleIntersectionChecked (cx1 cy1 r1 cx2 cy2 r2 : ℝ) (pickInner : Bool)
    (CX CY : ℝ) : Option Pt :=
  let dx := cx2 - cx1
  let dy := cy2 - cy1
  (sqrtChecked (dx ^ 2 + dy ^ 2)).bind fun d =>
  if d < 1/1000 then some ⟨cx1, cy1⟩
  else
    (divChecked (r1 ^ 2 - r2 ^ 2 + d ^ 2) (2 * d)).bind fun a =>
    (sqrtChecked (max 0 (r1 ^ 2 - a ^ 2))).bind fun h =>
    (divChecked (a * dx) d).bind fun adx =>
    (divChecked (a * dy) d).bind fun ady =>
    (divChecked (h * dy) d).bind fun ox =>
    (divChecked (h * dx) d).bind fun oy =>
    let p1 : Pt := ⟨cx1 + adx + ox, cy1 + ady - oy⟩
    let p2 : Pt := ⟨cx1 + adx - ox, cy1 + ady + oy⟩
    let d1 := (p1.x - CX) ^ 2 + (p1.y - CY) ^ 2
    let d2 := (p2.x - CX) ^ 2 + (p2.y - CY) ^ 2
    some (if pickInner then (if d1 < d2 then p1 else p2) else (if d1 < d2 then p2 else p1))

/-- The majority tally of the render's majority-vote block:
`posCount > arcEntries.length / 2`. -/
def majorityPositive (deltas : List ℝ) : Prop :=
  ((deltas.filter (fun d => decide (0 < d))).length : ℚ) > (deltas.length : ℚ) / 2

noncomputable instance (deltas : List ℝ) : Decidable (majorityPositive deltas) := by
  unfold majorityPositive; infer_instance

/-- The majority-vote arc correction applied to the in-flight arc deltas: deltas
disagreeing with the majority sign are shifted by a full turn `2π`. -/
noncomputable def majorityCorrect (deltas : List ℝ) : List ℝ :=
  if majorityPositive deltas then
    deltas.map (fun d => if d < 0 then d + 2 * Real.pi else d)
  else
    deltas.map (fun d => if 0 < d then d - 2 * Real.pi else d)

/-! ## Core lemmas: exact rotation algebra -/

theorem rot_comp (k : V3) (hk : k.normSq = 1) (α β : ℝ) (v : V3) :
    rotatePointAroundAxis (rotatePointAroundAxis v k α) k β
      = rotatePointAroundAxis v k (α + β) := by
  simp only [rotatePointAroundAxis, V3.cross, V3.dot, V3.normSq] at *
  ext <;> simp only [Real.cos_add, Real.sin_add] <;>
  · first
    | linear_combination ((1 - Real.cos α) * (1 - Real.cos β) *
        (k.x * v.x + k.y * v.y + k.z * v.z) * k.x -
        Real.sin α * Real.sin β * v.x) * hk
    | linear_combination ((1 - Real.cos α) * (1 - Real.cos β) *
        (k.x * v.x + k.y * v.y + k.z * v.z) * k.y -
        Real.sin α * Real.sin β * v.y) * hk
    | linear_combination ((1 - Real.cos α) * (1 - Real.cos β) *
        (k.x * v.x + k.y * v.y + k.z * v.z) * k.z -
        Real.sin α * Real.sin β * v.z) * hk

theorem rot_normSq (k : V3) (hk : k.normSq = 1) (θ : ℝ) (v : V3) :
    (rotatePointAroundAxis v k θ).normSq = v.normSq := by
  simp only [rotatePointAroundAxis, V3.cross, V3.dot, V3.normSq] at *
  linear_combination
    (Real.sin θ ^ 2 * (v.x ^ 2 + v.y ^ 2 + v.z ^ 2) +
      (1 - Real.cos θ) ^ 2 * (k.x * v.x + k.y * v.y + k.z * v.z) ^ 2) * hk +
    ((v.x ^ 2 + v.y ^ 2 + v.z ^ 2) - (k.x * v.x + k.y * v.y + k.z * v.z) ^ 2) *
      (Real.sin_sq_add_cos_sq θ)

theorem rot_dot_axis (k : V3) (hk : k.normSq = 1) (θ : ℝ) (v : V3) :
    (rotatePointAroundAxis v k θ).dot k = v.dot k := by
  simp only [rotatePointAroundAxis, V3.cross, V3.dot, V3.normSq] at *
  linear_combination ((1 - Real.cos θ) * (k.x * v.x + k.y * v.y + k.z * v.z)) * hk

theorem rot_id (k : V3) (θ : ℝ) (hc : Real.cos θ = 1) (hs : Real.sin θ = 0) (v : V3) :
    rotatePointAroundAxis v k θ = v := by
  simp [rotatePointAroundAxis, hc, hs]

theorem rot_sub (k : V3) (θ : ℝ) (u v : V3) :
    (rotatePointAroundAxis u k θ).sub (rotatePointAroundAxis v k θ)
      = rotatePointAroundAxis (u.sub v) k θ := by
  simp only [rotatePointAroundAxis, V3.cross, V3.dot, V3.sub]
  ext <;> ring

theorem rot_dist2 (k : V3) (hk : k.normSq = 1) (θ : ℝ) (u v : V3) :
    (rotatePointAroundAxis u k θ).dist2 (rotatePointAroundAxis v k θ) = u.dist2 v := by
  rw [V3.dist2, rot_sub, rot_normSq k hk, V3.dist2]

theorem rot_dist (k : V3) (hk : k.normSq = 1) (θ : ℝ) (u v : V3) :
    (rotatePointAroundAxis u k θ).dist (rotatePointAroundAxis v k θ) = u.dist v := by
  rw [V3.dist, rot_dist2 k hk, V3.dist]

theorem cos_two_pi_int (d : ℤ) : Real.cos ((d : ℝ) * (2 * Real.pi)) = 1 :=
  Real.cos_int_mul_two_pi d

theorem sin_two_pi_int (d : ℤ) : Real.sin ((d : ℝ) * (2 * Real.pi)) = 0 := by
  have h : (d : ℝ) * (2 * Real.pi) = ((2 * d : ℤ) : ℝ) * Real.pi := by push_cast; ring
  rw [h, Real.sin_int_mul_pi]

theorem AXES_normSq (v : Fin 4) : (AXES v).normSq = 1 := by
  have h3 : Real.sqrt 3 ^ 2 = 3 := Real.sq_sqrt (by norm_num)
  have hne : Real.sqrt 3 ≠ 0 := by positivity
  fin_cases v <;>
    · simp only [AXES, V3.normSq]
      field_simp
      linarith [h3]

theorem megaNR_sq : megaNR ^ 2 = 1 + megaPhi ^ 2 := Real.sq_sqrt (by positivity)

theorem megaNR_ne : megaNR ≠ 0 := by
  have : (0 : ℝ) < megaNR := Real.sqrt_pos.mpr (by positivity)
  exact this.ne'

theorem NORMALS_normSq (f : Fin 12) : (NORMALS f).normSq = 1 := by
  have h := megaNR_sq
  have hne := megaNR_ne
  fin_cases f <;>
    · simp only [NORMALS, V3.normSq]
      field_simp
      linarith [h]

/-! ## Core lemmas: the cube's sign-swap rotation -/

theorem rotQ_axis (axis : Fin 3) (d : ℚ) (v : Vec3Q) : rotQ axis d v axis = v axis := by
  fin_cases axis <;> simp [rotQ, otherAxes, Fin.ext_iff]

theorem rotQ_four (axis : Fin 3) {d : ℚ} (hd : d = 1 ∨ d = -1) (v : Vec3Q) :
    rotQ axis d (rotQ axis d (rotQ axis d (rotQ axis d v))) = v := by
  rcases hd with h | h <;> subst h <;> funext i <;> fin_cases axis <;> fin_cases i <;>
    simp [rotQ, otherAxes, Fin.ext_iff]

theorem rotQ_dist2 (axis : Fin 3) {d : ℚ} (hd : d = 1 ∨ d = -1) (u v : Vec3Q) :
    dist2Q (rotQ axis d u) (rotQ axis d v) = dist2Q u v := by
  rcases hd with h | h <;> subst h <;> fin_cases axis <;>
    · simp [rotQ, otherAxes, dist2Q, Fin.sum_univ_three, Fin.ext_iff]
      ring

theorem cubeRotP_m_axis (mv : CubeMove) (c : CubePiece) :
    (cubeRotP mv c).m mv.axis = c.m mv.axis := rotQ_axis mv.axis mv.dir c.m

theorem cubeRotP_four (mv : CubeMove) (hd : mv.dir = 1 ∨ mv.dir = -1) (c : CubePiece) :
    cubeRotP mv (cubeRotP mv (cubeRotP mv (cubeRotP mv c))) = c := by
  cases c with
  | mk m p st =>
    simp only [cubeRotP]
    refine congrArg₂ (CubePiece.mk · · st) ?_ ?_
    · exact rotQ_four mv.axis hd m
    · funext j; exact rotQ_four mv.axis hd (p j)

theorem cubeStep_four (mv : CubeMove) (hd : mv.dir = 1 ∨ mv.dir = -1) (c : CubePiece) :
    cubeStep mv (cubeStep mv (cubeStep mv (cubeStep mv c))) = c := by
  by_cases h : |c.m mv.axis - mv.layer| > 1/100
  · unfold cubeStep
    rw [if_pos h, if_pos h, if_pos h, if_pos h]
  · have hr : ∀ x : CubePiece, x.m mv.axis = c.m mv.axis → cubeStep mv x = cubeRotP mv x := by
      intro x hx
      unfold cubeStep
      rw [if_neg]
      rw [hx]
      exact h
    rw [hr c rfl, hr (cubeRotP mv c) (cubeRotP_m_axis mv c),
      hr (cubeRotP mv (cubeRotP mv c)) (by rw [cubeRotP_m_axis, cubeRotP_m_axis]),
      hr (cubeRotP mv (cubeRotP mv (cubeRotP mv c)))
        (by rw [cubeRotP_m_axis, cubeRotP_m_axis, cubeRotP_m_axis]),
      cubeRotP_four mv hd]

/-! ## Core lemmas: the pyraminx barycentric cycle -/

theorem cycleBary_vertex (v : Fin 4) (d : ℤ) (old : Fin 4 → ℤ) :
    cycleBary v d old v = old v := by
  by_cases hd : d = 1 <;> fin_cases v <;> simp [cycleBary, pyrOthers, hd]

theorem cycleBary_three (v : Fin 4) (d : ℤ) (old : Fin 4 → ℤ) :
    cycleBary v d (cycleBary v d (cycleBary v d old)) = old := by
  funext i
  by_cases hd : d = 1 <;> fin_cases v <;> fin_cases i <;>
    simp [cycleBary, pyrOthers, hd]

theorem cycleBary_sum (v : Fin 4) (d : ℤ) (old : Fin 4 → ℤ) :
    ∑ i : Fin 4, cycleBary v d old i = ∑ i : Fin 4, old i := by
  by_cases hd : d = 1 <;> fin_cases v <;>
    · simp [cycleBary, pyrOthers, hd, Fin.sum_univ_four]
      ring

/-! ## Core lemmas: pyraminx and megaminx step behaviour -/

theorem pyrRot_three (vtx : Fin 4) (d : ℤ) (v : V3) :
    rotatePointAroundAxis (rotatePointAroundAxis (rotatePointAroundAxis v (AXES vtx)
      (2 * Real.pi / 3 * d)) (AXES vtx) (2 * Real.pi / 3 * d)) (AXES vtx)
      (2 * Real.pi / 3 * d) = v := by
  have hk := AXES_normSq vtx
  rw [rot_comp _ hk, rot_comp _ hk]
  have h : 2 * Real.pi / 3 * (d : ℝ) + (2 * Real.pi / 3 * (d : ℝ) + 2 * Real.pi / 3 * (d : ℝ))
      = (d : ℝ) * (2 * Real.pi) := by ring
  rw [h]
  exact rot_id _ _ (cos_two_pi_int d) (sin_two_pi_int d) v

theorem megaRot_five (f : Fin 12) (d : ℤ) (v : V3) :
    rotatePointAroundAxis (rotatePointAroundAxis (rotatePointAroundAxis
      (rotatePointAroundAxis (rotatePointAroundAxis v (NORMALS f) (2 * Real.pi / 5 * d))
        (NORMALS f) (2 * Real.pi / 5 * d)) (NORMALS f) (2 * Real.pi / 5 * d))
      (NORMALS f) (2 * Real.pi / 5 * d)) (NORMALS f) (2 * Real.pi / 5 * d) = v := by
  have hk := NORMALS_normSq f
  rw [rot_comp _ hk, rot_comp _ hk, rot_comp _ hk, rot_comp _ hk]
  have h : 2 * Real.pi / 5 * (d : ℝ) + (2 * Real.pi / 5 * (d : ℝ) + (2 * Real.pi / 5 * (d : ℝ)
      + (2 * Real.pi / 5 * (d : ℝ) + 2 * Real.pi / 5 * (d : ℝ)))) = (d : ℝ) * (2 * Real.pi) := by
    ring
  rw [h]
  exact rot_id _ _ (cos_two_pi_int d) (sin_two_pi_int d) v

theorem pyrRotP_mem (mv : PyrMove) (pc : PyrPiece) :
    PyraminxPuzzle.isPieceInMove (pyrRotP mv pc) mv ↔ PyraminxPuzzle.isPieceInMove pc mv := by
  unfold PyraminxPuzzle.isPieceInMove pyrRotP
  simp [cycleBary_vertex]

theorem pyrRotP_three (mv : PyrMove) (pc : PyrPiece) :
    pyrRotP mv (pyrRotP mv (pyrRotP mv pc)) = pc := by
  cases pc with
  | mk m p st bary bs gap =>
    simp only [pyrRotP, List.map_map]
    congr 1
    · exact pyrRot_three mv.vertex mv.dir m
    · exact List.map_id'' (fun v => pyrRot_three mv.vertex mv.dir v) p
    · exact cycleBary_three mv.vertex mv.dir bary

theorem pyrStep_three (mv : PyrMove) (pc : PyrPiece) :
    pyrStep mv (pyrStep mv (pyrStep mv pc)) = pc := by
  by_cases h : PyraminxPuzzle.isPieceInMove pc mv
  · have h1 : pyrStep mv pc = pyrRotP mv pc := if_pos h
    have h2 : pyrStep mv (pyrRotP mv pc) = pyrRotP mv (pyrRotP mv pc) :=
      if_pos ((pyrRotP_mem mv pc).mpr h)
    have h3 : pyrStep mv (pyrRotP mv (pyrRotP mv pc))
        = pyrRotP mv (pyrRotP mv (pyrRotP mv pc)) :=
      if_pos ((pyrRotP_mem mv (pyrRotP mv pc)).mpr ((pyrRotP_mem mv pc).mpr h))
    rw [h1, h2, h3, pyrRotP_three]
  · simp [pyrStep, h]

theorem megaRotP_mem (mv : MegaMove) (pc : MegaPiece) :
    MegaminxPuzzle.isPieceInMove (megaRotP mv pc) mv ↔ MegaminxPuzzle.isPieceInMove pc mv := by
  unfold MegaminxPuzzle.isPieceInMove megaRotP
  simp only
  rw [rot_dot_axis _ (NORMALS_normSq mv.face)]

theorem megaRotP_five (mv : MegaMove) (pc : MegaPiece) :
    megaRotP mv (megaRotP mv (megaRotP mv (megaRotP mv (megaRotP mv pc)))) = pc := by
  cases pc with
  | mk m p st =>
    simp only [megaRotP, List.map_map]
    congr 1
    · exact megaRot_five mv.face mv.dir m
    · exact List.map_id'' (fun v => megaRot_five mv.face mv.dir v) p

theorem megaStep_five (mv : MegaMove) (pc : MegaPiece) :
    megaStep mv (megaStep mv (megaStep mv (megaStep mv (megaStep mv pc)))) = pc := by
  by_cases h : MegaminxPuzzle.isPieceInMove pc mv
  · have m1 : MegaminxPuzzle.isPieceInMove (megaRotP mv pc) mv := (megaRotP_mem mv pc).mpr h
    have m2 : MegaminxPuzzle.isPieceInMove (megaRotP mv (megaRotP mv pc)) mv :=
      (megaRotP_mem mv _).mpr m1
    have m3 : MegaminxPuzzle.isPieceInMove (megaRotP mv (megaRotP mv (megaRotP mv pc))) mv :=
      (megaRotP_mem mv _).mpr m2
    have h1 : megaStep mv pc = megaRotP mv pc := if_pos h
    have h2 : megaStep mv (megaRotP mv pc) = megaRotP mv (megaRotP mv pc) := if_pos m1
    have h3 : megaStep mv (megaRotP mv (megaRotP mv pc))
        = megaRotP mv (megaRotP mv (megaRotP mv pc)) := if_pos m2
    have h4 : megaStep mv (megaRotP mv (megaRotP mv (megaRotP mv pc)))
        = megaRotP mv (megaRotP mv (megaRotP mv (megaRotP mv pc))) := if_pos m3
    have h5 : megaStep mv (megaRotP mv (megaRotP mv (megaRotP mv (megaRotP mv pc))))
        = megaRotP mv (megaRotP mv (megaRotP mv (megaRotP mv (megaRotP mv pc)))) :=
      if_pos ((megaRotP_mem mv _).mpr m3)
    rw [h1, h2, h3, h4, h5, megaRotP_five]
  · simp [megaStep, h]

/-! ## Core lemmas: step isometry -/

theorem distQ_rotQ (axis : Fin 3) {d : ℚ} (hd : d = 1 ∨ d = -1) (u v : Vec3Q) :
    distQ (rotQ axis d u) (rotQ axis d v) = distQ u v := by
  unfold distQ
  rw [rotQ_dist2 axis hd]

theorem cubeStep_pairDists (mv : CubeMove) (hd : mv.dir = 1 ∨ mv.dir = -1) (c : CubePiece) :
    CubePiece.pairDists (cubeStep mv c) = CubePiece.pairDists c := by
  unfold cubeStep
  split
  · rfl
  · simp only [CubePiece.pairDists, cubeRotP, distQ_rotQ mv.axis hd]

theorem pyrStep_pairDists (mv : PyrMove) (pc : PyrPiece) :
    PyrPiece.pairDists (pyrStep mv pc) = PyrPiece.pairDists pc := by
  unfold pyrStep
  split
  · simp only [PyrPiece.pairDists, pyrRotP, List.flatMap_map, List.map_map, Function.comp_def,
      rot_dist _ (AXES_normSq mv.vertex)]
  · rfl

theorem megaStep_pairDists (mv : MegaMove) (pc : MegaPiece) :
    MegaPiece.pairDists (megaStep mv pc) = MegaPiece.pairDists pc := by
  unfold megaStep
  split
  · simp only [MegaPiece.pairDists, megaRotP, List.flatMap_map, List.map_map, Function.comp_def,
      rot_dist _ (NORMALS_normSq mv.face)]
  · rfl

theorem cube_foldl_pairDists (moves : List CubeMove)
    (hd : ∀ mv ∈ moves, mv.dir = 1 ∨ mv.dir = -1) (pieces : List CubePiece) (i : ℕ) :
    ((moves.foldl CubePuzzle.applyRotation pieces)[i]?).map CubePiece.pairDists
      = (pieces[i]?).map CubePiece.pairDists := by
  induction moves generalizing pieces with
  | nil => rfl
  | cons mv moves ih =>
    rw [List.foldl_cons, ih (fun m hm => hd m (List.mem_cons_of_mem mv hm)),
      CubePuzzle.applyRotation, List.getElem?_map, Option.map_map]
    exact congrArg (fun f => (pieces[i]?).map f)
      (funext fun c => cubeStep_pairDists mv (hd mv (List.mem_cons_self mv moves)) c)

theorem pyr_foldl_pairDists (moves : List PyrMove) (pieces : List PyrPiece) (i : ℕ) :
    ((moves.foldl PyraminxPuzzle.applyRotation pieces)[i]?).map PyrPiece.pairDists
      = (pieces[i]?).map PyrPiece.pairDists := by
  induction moves generalizing pieces with
  | nil => rfl
  | cons mv moves ih =>
    rw [List.foldl_cons, ih, PyraminxPuzzle.applyRotation, List.getElem?_map, Option.map_map]
    exact congrArg (fun f => (pieces[i]?).map f) (funext fun pc => pyrStep_pairDists mv pc)

theorem mega_foldl_pairDists (moves : List MegaMove) (pieces : List MegaPiece) (i : ℕ) :
    ((moves.foldl MegaminxPuzzle.applyRotation pieces)[i]?).map MegaPiece.pairDists
      = (pieces[i]?).map MegaPiece.pairDists := by
  induction moves generalizing pieces with
  | nil => rfl
  | cons mv moves ih =>
    rw [List.foldl_cons, ih, MegaminxPuzzle.applyRotation, List.getElem?_map, Option.map_map]
    exact congrArg (fun f => (pieces[i]?).map f) (funext fun pc => megaStep_pairDists mv pc)

/-! ## Claim theorems -/

/-- C1: Group order of each puzzle's move. For every move descriptor (the cube's
always carries `dir ∈ {1, -1}`; pyraminx/megaminx `dir` is any signed integer),
applying the puzzle's `applyRotation` with that same move 4 times (cube), 3 times
(pyraminx), or 5 times (megaminx) returns every piece — centroid, vertex list,
barycentric coordinates, sticker assignment — to its pre-move state, exactly. -/
theorem c1_move_group_order :
    (∀ (pieces : List CubePiece) (mv : CubeMove), mv.dir = 1 ∨ mv.dir = -1 →
      CubePuzzle.applyRotation (CubePuzzle.applyRotation (CubePuzzle.applyRotation
        (CubePuzzle.applyRotation pieces mv) mv) mv) mv = pieces) ∧
    (∀ (pieces : List PyrPiece) (mv : PyrMove),
      PyraminxPuzzle.applyRotation (PyraminxPuzzle.applyRotation
        (PyraminxPuzzle.applyRotation pieces mv) mv) mv = pieces) ∧
    (∀ (pieces : List MegaPiece) (mv : MegaMove),
      MegaminxPuzzle.applyRotation (MegaminxPuzzle.applyRotation
        (MegaminxPuzzle.applyRotation (MegaminxPuzzle.applyRotation
          (MegaminxPuzzle.applyRotation pieces mv) mv) mv) mv) mv = pieces) := by
  refine ⟨fun ps mv hd => ?_, fun ps mv => ?_, fun ps mv => ?_⟩
  · simp only [CubePuzzle.applyRotation, List.map_map]
    exact List.map_id'' (fun c => cubeStep_four mv hd c) ps
  · simp only [PyraminxPuzzle.applyRotation, List.map_map]
    exact List.map_id'' (fun pc => pyrStep_three mv pc) ps
  · simp only [MegaminxPuzzle.applyRotation, List.map_map]
    exact List.map_id'' (fun pc => megaStep_five mv pc) ps

/-- Witness for C1: the cube conjunct applied at a concrete one-piece store and the
move `{axis: 0, layer: 1, dir: 1}`, its hypothesis `dir ∈ {1, -1}` discharged. -/
theorem c1_move_group_order_witness :
    ((1 : ℚ) = 1 ∨ (1 : ℚ) = -1) ∧
    CubePuzzle.applyRotation (CubePuzzle.applyRotation (CubePuzzle.applyRotation
      (CubePuzzle.applyRotation [⟨![1, 1, 1], fun _ => ![0, 0, 0], fun _ => none⟩]
        ⟨0, 1, 1⟩) ⟨0, 1, 1⟩) ⟨0, 1, 1⟩) ⟨0, 1, 1⟩
      = [⟨![1, 1, 1], fun _ => ![0, 0, 0], fun _ => none⟩] :=
  ⟨Or.inl rfl, c1_move_group_order.1 _ _ (Or.inl rfl)⟩

/-- C2: Rigidity. For every piece of any of the three puzzles and any finite
sequence of fully-committed moves (`applyRotation` calls, the cube's with
`dir ∈ {1, -1}`), every pairwise distance between two vertices within that piece
equals its value in the piece's initial geometry, exactly. -/
theorem c2_rigidity :
    (∀ (pieces : List CubePiece) (moves : List CubeMove),
      (∀ mv ∈ moves, mv.dir = 1 ∨ mv.dir = -1) → ∀ i : ℕ,
      ((moves.foldl CubePuzzle.applyRotation pieces)[i]?).map CubePiece.pairDists
        = (pieces[i]?).map CubePiece.pairDists) ∧
    (∀ (pieces : List PyrPiece) (moves : List PyrMove), ∀ i : ℕ,
      ((moves.foldl PyraminxPuzzle.applyRotation pieces)[i]?).map PyrPiece.pairDists
        = (pieces[i]?).map PyrPiece.pairDists) ∧
    (∀ (pieces : List MegaPiece) (moves : List MegaMove), ∀ i : ℕ,
      ((moves.foldl MegaminxPuzzle.applyRotation pieces)[i]?).map MegaPiece.pairDists
        = (pieces[i]?).map MegaPiece.pairDists) :=
  ⟨fun ps moves hd i => cube_foldl_pairDists moves hd ps i,
   fun ps moves i => pyr_foldl_pairDists moves ps i,
   fun ps moves i => mega_foldl_pairDists moves ps i⟩

/-- Witness for C2: the cube conjunct applied at a concrete one-piece store and the
singleton move list `[{axis: 0, layer: 1, dir: 1}]`, its hypothesis discharged. -/
theorem c2_rigidity_witness :
    (∀ mv ∈ [(⟨0, 1, 1⟩ : CubeMove)], mv.dir = 1 ∨ mv.dir = -1) ∧
    (([(⟨0, 1, 1⟩ : CubeMove)].foldl CubePuzzle.applyRotation
        [(⟨![1, 1, 1], fun _ => ![0, 0, 0], fun _ => none⟩ : CubePiece)])[0]?).map
        CubePiece.pairDists
      = ([(⟨![1, 1, 1], fun _ => ![0, 0, 0], fun _ => none⟩ : CubePiece)][0]?).map
        CubePiece.pairDists := by
  have hd : ∀ mv ∈ [(⟨0, 1, 1⟩ : CubeMove)], mv.dir = 1 ∨ mv.dir = -1 := by
    intro mv hm
    rw [List.mem_singleton] at hm
    subst hm
    exact Or.inl rfl
  exact ⟨hd, c2_rigidity.1 _ _ hd 0⟩

theorem cycleBary_cw (v : Fin 4) (old : Fin 4 → ℤ) :
    cycleBary v 1 old (pyrOthers v).1 = old (pyrOthers v).2.2 ∧
    cycleBary v 1 old (pyrOthers v).2.1 = old (pyrOthers v).1 ∧
    cycleBary v 1 old (pyrOthers v).2.2 = old (pyrOthers v).2.1 := by
  fin_cases v <;> simp [cycleBary, pyrOthers]

theorem cycleBary_ccw (v : Fin 4) {d : ℤ} (hd : d ≠ 1) (old : Fin 4 → ℤ) :
    cycleBary v d old (pyrOthers v).1 = old (pyrOthers v).2.1 ∧
    cycleBary v d old (pyrOthers v).2.1 = old (pyrOthers v).2.2 ∧
    cycleBary v d old (pyrOthers v).2.2 = old (pyrOthers v).1 := by
  fin_cases v <;> simp [cycleBary, pyrOthers, hd]

/-- C5: Pyraminx barycentric bookkeeping. For every pyraminx piece affected by a
move, `applyRotation` updates the 4-element integer barycentric vector by an exact
cyclic permutation of the three components other than `move.vertex` (cycle direction
determined by `dir`, the vertex component fixed); unaffected pieces are untouched;
and the sum of the barycentric components is unchanged by every `applyRotation`. -/
theorem c5_bary_cycle :
    ∀ (pieces : List PyrPiece) (mv : PyrMove) (i : ℕ) (pc pc' : PyrPiece),
      pieces[i]? = some pc → (PyraminxPuzzle.applyRotation pieces mv)[i]? = some pc' →
      (¬ PyraminxPuzzle.isPieceInMove pc mv → pc' = pc) ∧
      (PyraminxPuzzle.isPieceInMove pc mv →
        pc'.bary = cycleBary mv.vertex mv.dir pc.bary ∧
        pc'.bary mv.vertex = pc.bary mv.vertex ∧
        (mv.dir = 1 →
          pc'.bary (pyrOthers mv.vertex).1 = pc.bary (pyrOthers mv.vertex).2.2 ∧
          pc'.bary (pyrOthers mv.vertex).2.1 = pc.bary (pyrOthers mv.vertex).1 ∧
          pc'.bary (pyrOthers mv.vertex).2.2 = pc.bary (pyrOthers mv.vertex).2.1) ∧
        (mv.dir ≠ 1 →
          pc'.bary (pyrOthers mv.vertex).1 = pc.bary (pyrOthers mv.vertex).2.1 ∧
          pc'.bary (pyrOthers mv.vertex).2.1 = pc.bary (pyrOthers mv.vertex).2.2 ∧
          pc'.bary (pyrOthers mv.vertex).2.2 = pc.bary (pyrOthers mv.vertex).1)) ∧
      (∑ j : Fin 4, pc'.bary j) = ∑ j : Fin 4, pc.bary j := by
  intro pieces mv i pc pc' h1 h2
  rw [PyraminxPuzzle.applyRotation, List.getElem?_map, h1] at h2
  have hpc' : pc' = pyrStep mv pc := (Option.some_inj.mp h2).symm
  subst hpc'
  by_cases hmem : PyraminxPuzzle.isPieceInMove pc mv
  · have hstep : pyrStep mv pc = pyrRotP mv pc := if_pos hmem
    rw [hstep]
    refine ⟨fun hn => absurd hmem hn, fun _ => ?_, cycleBary_sum mv.vertex mv.dir pc.bary⟩
    refine ⟨rfl, cycleBary_vertex mv.vertex mv.dir pc.bary, fun hd1 => ?_,
      fun hd1 => cycleBary_ccw mv.vertex hd1 pc.bary⟩
    rw [show (pyrRotP mv pc).bary = cycleBary mv.vertex mv.dir pc.bary from rfl, hd1]
    exact cycleBary_cw mv.vertex pc.bary
  · have hstep : pyrStep mv pc = pc := if_neg hmem
    rw [hstep]
    exact ⟨fun _ => rfl, fun h => absurd h hmem, rfl⟩

/-- Witness for C5: the theorem applied at a concrete one-piece store (barycentric
vector `(0,1,2,0)`, class sum 3, upright) and the move `{vertex: 0, depth: 10,
dir: 1}`, the membership hypothesis discharged; the resulting barycentric vector is
the exact cycle and the component sum is preserved. -/
theorem c5_bary_cycle_witness :
    PyraminxPuzzle.isPieceInMove
      (⟨⟨0, 0, 0⟩, [], fun _ => none, ![0, 1, 2, 0], 3, false⟩ : PyrPiece) ⟨0, 10, 1⟩ ∧
    (pyrStep ⟨0, 10, 1⟩
        (⟨⟨0, 0, 0⟩, [], fun _ => none, ![0, 1, 2, 0], 3, false⟩ : PyrPiece)).bary
      = cycleBary 0 1 ![0, 1, 2, 0] ∧
    (∑ j : Fin 4, (pyrStep ⟨0, 10, 1⟩
        (⟨⟨0, 0, 0⟩, [], fun _ => none, ![0, 1, 2, 0], 3, false⟩ : PyrPiece)).bary j)
      = ∑ j : Fin 4, (![0, 1, 2, 0] : Fin 4 → ℤ) j := by
  have hmem : PyraminxPuzzle.isPieceInMove
      (⟨⟨0, 0, 0⟩, [], fun _ => none, ![0, 1, 2, 0], 3, false⟩ : PyrPiece) ⟨0, 10, 1⟩ := by
    unfold PyraminxPuzzle.isPieceInMove
    norm_num
  have H := c5_bary_cycle
    [⟨⟨0, 0, 0⟩, [], fun _ => none, ![0, 1, 2, 0], 3, false⟩] ⟨0, 10, 1⟩ 0
    ⟨⟨0, 0, 0⟩, [], fun _ => none, ![0, 1, 2, 0], 3, false⟩
    (pyrStep ⟨0, 10, 1⟩ ⟨⟨0, 0, 0⟩, [], fun _ => none, ![0, 1, 2, 0], 3, false⟩)
    rfl rfl
  exact ⟨hmem, (H.2.1 hmem).1, H.2.2⟩

theorem pyrStep_stickers (mv : PyrMove) (pc : PyrPiece) :
    (pyrStep mv pc).stickers = pc.stickers := by
  unfold pyrStep pyrRotP
  split <;> rfl

theorem megaStep_stickers (mv : MegaMove) (pc : MegaPiece) :
    (megaStep mv pc).stickers = pc.stickers := by
  unfold megaStep megaRotP
  split <;> rfl

/-- C9: Sticker-table frame condition. For pyraminx and megaminx, `applyRotation`
never writes the stickers mapping of any piece, so `getStickerColor` returns the
same colorId-or-null for every piece and face slot after any sequence of moves as it
did before. -/
theorem c9_sticker_frame :
    (∀ (pieces : List PyrPiece) (moves : List PyrMove) (i : ℕ) (face : ℤ),
      ((moves.foldl PyraminxPuzzle.applyRotation pieces)[i]?).map
          (fun pc => PyraminxPuzzle.getStickerColor pc face)
        = (pieces[i]?).map (fun pc => PyraminxPuzzle.getStickerColor pc face)) ∧
    (∀ (pieces : List MegaPiece) (moves : List MegaMove) (i : ℕ) (face : ℤ),
      ((moves.foldl MegaminxPuzzle.applyRotation pieces)[i]?).map
          (fun pc => MegaminxPuzzle.getStickerColor pc face)
        = (pieces[i]?).map (fun pc => MegaminxPuzzle.getStickerColor pc face)) := by
  constructor
  · intro pieces moves i face
    induction moves generalizing pieces with
    | nil => rfl
    | cons mv moves ih =>
      rw [List.foldl_cons, ih, PyraminxPuzzle.applyRotation, List.getElem?_map,
        Option.map_map]
      refine congrArg (fun f => (pieces[i]?).map f) (funext fun pc => ?_)
      show PyraminxPuzzle.getStickerColor (pyrStep mv pc) face
        = PyraminxPuzzle.getStickerColor pc face
      unfold PyraminxPuzzle.getStickerColor
      rw [pyrStep_stickers]
  · intro pieces moves i face
    induction moves generalizing pieces with
    | nil => rfl
    | cons mv moves ih =>
      rw [List.foldl_cons, ih, MegaminxPuzzle.applyRotation, List.getElem?_map,
        Option.map_map]
      refine congrArg (fun f => (pieces[i]?).map f) (funext fun pc => ?_)
      show MegaminxPuzzle.getStickerColor (megaStep mv pc) face
        = MegaminxPuzzle.getStickerColor pc face
      unfold MegaminxPuzzle.getStickerColor
      rw [megaStep_stickers]

/-! ## Core lemmas: the animation queue -/

set_option linter.unreachableTactic false

set_option linter.unusedTactic false

theorem update_committed_len {M P : Type} (apply : P → M → P) (t : ℚ)
    (s : AnimationQueue M) (p : P) :
    (AnimationQueue.update apply t s p).committed.length ≤ 1 := by
  rcases s with ⟨q, cur, ms, md⟩
  unfold AnimationQueue.update
  cases cur with
  | none => cases q <;> simp
  | some mv =>
    by_cases hpr : (t - ms) / md ≥ 1
    · simp only [if_pos hpr]
      try (cases q <;> simp)
      all_goals simp
    · simp only [if_neg hpr]
      try (cases q <;> simp)
      all_goals simp

theorem update_committed_src {M P : Type} (apply : P → M → P) (t : ℚ)
    (s : AnimationQueue M) (p : P) (m : M) :
    (AnimationQueue.update apply t s p).committed = [m] → s.current = some m := by
  rcases s with ⟨q, cur, ms, md⟩
  unfold AnimationQueue.update
  cases cur with
  | none => cases q <;> simp
  | some mv =>
    by_cases hpr : (t - ms) / md ≥ 1
    · simp only [if_pos hpr]
      try (cases q <;> simp)
      all_goals simp
    · simp only [if_neg hpr]
      try (cases q <;> simp)
      all_goals simp

theorem update_fifo {M P : Type} (apply : P → M → P) (t : ℚ)
    (s : AnimationQueue M) (p : P) :
    (AnimationQueue.update apply t s p).committed
        ++ (AnimationQueue.update apply t s p).state.current.toList
        ++ (AnimationQueue.update apply t s p).state.queue
      = s.current.toList ++ s.queue := by
  rcases s with ⟨q, cur, ms, md⟩
  unfold AnimationQueue.update
  cases cur with
  | none => cases q <;> simp
  | some mv =>
    by_cases hpr : (t - ms) / md ≥ 1
    · simp only [if_pos hpr]
      try (cases q <;> simp)
      all_goals simp
    · simp only [if_neg hpr]
      try (cases q <;> simp)
      all_goals simp

theorem update_progress_bounds {M P : Type} (apply : P → M → P) (t : ℚ)
    (s : AnimationQueue M) (p : P) (hms : s.moveStart ≤ t) (hmd : 0 < s.moveDuration) :
    0 ≤ (AnimationQueue.update apply t s p).retProgress ∧
      (AnimationQueue.update apply t s p).retProgress ≤ 1 := by
  rcases s with ⟨q, cur, ms, md⟩
  simp only at hms hmd
  unfold AnimationQueue.update
  cases cur with
  | none => cases q <;> simp
  | some mv =>
    by_cases hpr : (t - ms) / md ≥ 1
    · simp only [if_pos hpr]
      try (cases q <;> simp)
      all_goals simp
    · simp only [if_neg hpr]
      have h0 : 0 ≤ (t - ms) / md := div_nonneg (by linarith) (le_of_lt hmd)
      cases q <;> constructor <;> simp [le_min_iff, h0]

theorem update_moveStart {M P : Type} (apply : P → M → P) (t : ℚ)
    (s : AnimationQueue M) (p : P) (hms : s.moveStart ≤ t) :
    (AnimationQueue.update apply t s p).state.moveStart ≤ t := by
  rcases s with ⟨q, cur, ms, md⟩
  simp only at hms
  unfold AnimationQueue.update
  cases cur with
  | none => cases q <;> simp [hms]
  | some mv =>
    by_cases hpr : (t - ms) / md ≥ 1
    · simp only [if_pos hpr]
      try (cases q <;> simp [hms])
      all_goals simp [hms]
    · simp only [if_neg hpr]
      try (cases q <;> simp [hms])
      all_goals simp [hms]

theorem update_moveDuration {M P : Type} (apply : P → M → P) (t : ℚ)
    (s : AnimationQueue M) (p : P) :
    (AnimationQueue.update apply t s p).state.moveDuration = s.moveDuration := by
  rcases s with ⟨q, cur, ms, md⟩
  unfold AnimationQueue.update
  cases cur with
  | none => cases q <;> simp
  | some mv =>
    by_cases hpr : (t - ms) / md ≥ 1
    · simp only [if_pos hpr]
      try (cases q <;> simp)
      all_goals simp
    · simp only [if_neg hpr]
      try (cases q <;> simp)
      all_goals simp

theorem update_pieces {M P : Type} (apply : P → M → P) (t : ℚ)
    (s : AnimationQueue M) (p : P) :
    (AnimationQueue.update apply t s p).pieces
      = (AnimationQueue.update apply t s p).committed.foldl apply p := by
  rcases s with ⟨q, cur, ms, md⟩
  unfold AnimationQueue.update
  cases cur with
  | none => cases q <;> simp
  | some mv =>
    by_cases hpr : (t - ms) / md ≥ 1
    · simp only [if_pos hpr]
      try (cases q <;> simp)
      all_goals simp
    · simp only [if_neg hpr]
      try (cases q <;> simp)
      all_goals simp

theorem run_fifo_aux {M P : Type} (apply : P → M → P) :
    ∀ (evs : List (AQEvent M)) (r : AQRun M P), noClear evs →
      (AQRun.run apply r evs).committedLog ++ (AQRun.run apply r evs).st.current.toList
          ++ (AQRun.run apply r evs).st.queue
        = r.committedLog ++ r.st.current.toList ++ r.st.queue ++ enqOf evs := by
  intro evs
  induction evs with
  | nil => intro r _; simp [AQRun.run, enqOf]
  | cons e evs ih =>
    intro r hnc
    cases e with
    | enq m =>
      have h := ih (AQRun.step apply r (AQEvent.enq m)) hnc
      rw [AQRun.run, List.foldl_cons, ← AQRun.run] at *
      rw [h]
      simp [AQRun.step, AnimationQueue.queueMove, enqOf, List.filterMap_cons]
    | upd t =>
      have h := ih (AQRun.step apply r (AQEvent.upd t)) hnc
      rw [AQRun.run, List.foldl_cons, ← AQRun.run] at *
      rw [h]
      have hu := congrArg (fun l => l ++ enqOf evs) (update_fifo apply t r.st r.pieces)
      simp only [enqOf, List.append_assoc] at hu
      simp only [AQRun.step, enqOf, List.filterMap_cons, List.append_assoc]
      rw [hu]
    | clearEv => exact absurd hnc (by simp [noClear])

theorem run_outs_aux {M P : Type} (apply : P → M → P) :
    ∀ (evs : List (AQEvent M)) (r : AQRun M P) (t0 : ℚ), r.st.moveStart ≤ t0 →
      0 < r.st.moveDuration → timesLB t0 evs →
      (∀ o ∈ r.outs, 0 ≤ o.2 ∧ o.2 ≤ 1) →
      ∀ o ∈ (AQRun.run apply r evs).outs, 0 ≤ o.2 ∧ o.2 ≤ 1 := by
  intro evs
  induction evs with
  | nil => intro r t0 _ _ _ houts; exact houts
  | cons e evs ih =>
    intro r t0 hms hmd htl houts
    cases e with
    | enq m =>
      rw [AQRun.run, List.foldl_cons, ← AQRun.run]
      exact ih _ t0 hms hmd htl houts
    | upd t =>
      rw [AQRun.run, List.foldl_cons, ← AQRun.run]
      obtain ⟨ht0, htl'⟩ := htl
      refine ih _ t (update_moveStart apply t r.st r.pieces (le_trans hms ht0)) ?_ htl' ?_
      · rw [AQRun.step]
        simp only [update_moveDuration]
        exact hmd
      · intro o ho
        rw [AQRun.step] at ho
        simp only [List.mem_append, List.mem_singleton] at ho
        rcases ho with ho | ho
        · exact houts o ho
        · subst ho
          exact update_progress_bounds apply t r.st r.pieces (le_trans hms ht0) hmd
    | clearEv =>
      rw [AQRun.run, List.foldl_cons, ← AQRun.run]
      exact ih _ t0 hms hmd htl houts

theorem run_pieces_aux {M P : Type} (apply : P → M → P) (p0 : P) :
    ∀ (evs : List (AQEvent M)) (r : AQRun M P),
      r.pieces = r.committedLog.foldl apply p0 →
      (AQRun.run apply r evs).pieces = (AQRun.run apply r evs).committedLog.foldl apply p0 := by
  intro evs
  induction evs with
  | nil => intro r h; exact h
  | cons e evs ih =>
    intro r h
    rw [AQRun.run, List.foldl_cons, ← AQRun.run]
    cases e with
    | enq m => exact ih _ h
    | upd t =>
      refine ih _ ?_
      show (AnimationQueue.update apply t r.st r.pieces).pieces
        = (r.committedLog ++ (AnimationQueue.update apply t r.st r.pieces).committed).foldl
            apply p0
      rw [update_pieces, List.foldl_append, ← h]
    | clearEv => exact ih _ h

/-- C3: Animation-queue serialization. For every trace of `queueMove`/`update` calls
with non-decreasing times: each `update` call invokes `applyRotation` at most once
(the per-call commit list has at most one element); when it does, the committed move
is the in-flight `current` move; over the whole trace the committed log, the
in-flight move and the remaining queue concatenate to exactly the FIFO enqueue
order (so moves commit in queueing order and at most one is in flight); and the
progress value returned by `update` always lies in `[0, 1]`. -/
theorem c3_queue_serialization :
    (∀ (M P : Type) (apply : P → M → P) (t : ℚ) (s : AnimationQueue M) (p : P),
      (AnimationQueue.update apply t s p).committed.length ≤ 1) ∧
    (∀ (M P : Type) (apply : P → M → P) (t : ℚ) (s : AnimationQueue M) (p : P) (m : M),
      (AnimationQueue.update apply t s p).committed = [m] → s.current = some m) ∧
    (∀ (M P : Type) (apply : P → M → P) (p0 : P) (dur : ℚ) (evs : List (AQEvent M)),
      noClear evs →
      (AQRun.run apply (AQRun.start p0 dur) evs).committedLog
          ++ (AQRun.run apply (AQRun.start p0 dur) evs).st.current.toList
          ++ (AQRun.run apply (AQRun.start p0 dur) evs).st.queue
        = enqOf evs) ∧
    (∀ (M P : Type) (apply : P → M → P) (p0 : P) (dur : ℚ) (evs : List (AQEvent M)),
      0 < dur → timesLB 0 evs →
      ∀ o ∈ (AQRun.run apply (AQRun.start p0 dur) evs).outs, 0 ≤ o.2 ∧ o.2 ≤ 1) := by
  refine ⟨fun hM hP apply t s p => update_committed_len apply t s p,
    fun hM hP apply t s p m => update_committed_src apply t s p m,
    fun hM hP apply p0 dur evs hnc => ?_,
    fun hM hP apply p0 dur evs hdur htl => ?_⟩
  · have h := run_fifo_aux apply evs (AQRun.start p0 dur) hnc
    simpa [AQRun.start] using h
  · refine run_outs_aux apply evs (AQRun.start p0 dur) 0 ?_ ?_ htl ?_
    · exact le_refl 0
    · exact hdur
    · intro o ho
      simp [AQRun.start] at ho

/-- Witness for C3: a concrete trace over a toy piece store — queue move `7`, tick
at time 0 (starts the move), tick at time 2 (commits it) — with duration 1; the
no-clear, positive-duration and non-decreasing-time hypotheses are discharged and
the FIFO identity and a returned progress bound are obtained from the theorem. -/
theorem c3_queue_serialization_witness :
    noClear [AQEvent.enq (7 : ℕ), AQEvent.upd (0 : ℚ), AQEvent.upd 2] ∧
    (0 : ℚ) < 1 ∧
    timesLB (0 : ℚ) [AQEvent.enq (7 : ℕ), AQEvent.upd 0, AQEvent.upd 2] ∧
    (AQRun.run (fun (p : ℕ) (_ : ℕ) => p + 1) (AQRun.start 0 1)
        [AQEvent.enq 7, AQEvent.upd 0, AQEvent.upd 2]).committedLog
      ++ (AQRun.run (fun (p : ℕ) (_ : ℕ) => p + 1) (AQRun.start 0 1)
        [AQEvent.enq 7, AQEvent.upd 0, AQEvent.upd 2]).st.current.toList
      ++ (AQRun.run (fun (p : ℕ) (_ : ℕ) => p + 1) (AQRun.start 0 1)
        [AQEvent.enq 7, AQEvent.upd 0, AQEvent.upd 2]).st.queue
      = enqOf [AQEvent.enq (7 : ℕ), AQEvent.upd 0, AQEvent.upd 2] ∧
    0 ≤ ((AQRun.run (fun (p : ℕ) (_ : ℕ) => p + 1) (AQRun.start 0 1)
        [AQEvent.enq 7, AQEvent.upd 0, AQEvent.upd 2]).outs.headD (none, 0)).2 ∧
    ((AQRun.run (fun (p : ℕ) (_ : ℕ) => p + 1) (AQRun.start 0 1)
        [AQEvent.enq 7, AQEvent.upd 0, AQEvent.upd 2]).outs.headD (none, 0)).2 ≤ 1 := by
  have hnc : noClear [AQEvent.enq (7 : ℕ), AQEvent.upd (0 : ℚ), AQEvent.upd 2] := by
    simp [noClear]
  have htl : timesLB (0 : ℚ) [AQEvent.enq (7 : ℕ), AQEvent.upd 0, AQEvent.upd 2] :=
    ⟨le_refl 0, by norm_num, trivial⟩
  have hdur : (0 : ℚ) < 1 := by norm_num
  have s1 : AQRun.step (fun (p : ℕ) (_ : ℕ) => p + 1) (AQRun.start 0 1) (AQEvent.enq 7)
      = ⟨⟨[7], none, 0, 1⟩, 0, [], []⟩ := by
    simp [AQRun.step, AQRun.start, AnimationQueue.queueMove]
  have s2 : AQRun.step (fun (p : ℕ) (_ : ℕ) => p + 1)
      (⟨⟨[7], none, 0, 1⟩, 0, [], []⟩ : AQRun ℕ ℕ) (AQEvent.upd 0)
      = ⟨⟨[], some 7, 0, 1⟩, 0, [], [(some 7, 0)]⟩ := by
    simp [AQRun.step, AnimationQueue.update]
  have s3 : AQRun.step (fun (p : ℕ) (_ : ℕ) => p + 1)
      (⟨⟨[], some 7, 0, 1⟩, 0, [], [(some 7, 0)]⟩ : AQRun ℕ ℕ) (AQEvent.upd 2)
      = ⟨⟨[], none, 0, 1⟩, 1, [7], [(some 7, 0), (none, 0)]⟩ := by
    simp [AQRun.step, AnimationQueue.update]
  have hrun : AQRun.run (fun (p : ℕ) (_ : ℕ) => p + 1) (AQRun.start 0 1)
      [AQEvent.enq 7, AQEvent.upd 0, AQEvent.upd 2]
      = ⟨⟨[], none, 0, 1⟩, 1, [7], [(some 7, 0), (none, 0)]⟩ := by
    show AQRun.step _ (AQRun.step _ (AQRun.step _ (AQRun.start 0 1) (AQEvent.enq 7))
      (AQEvent.upd 0)) (AQEvent.upd 2) = _
    rw [s1, s2, s3]
  have hmem : ((AQRun.run (fun (p : ℕ) (_ : ℕ) => p + 1) (AQRun.start 0 1)
      [AQEvent.enq 7, AQEvent.upd 0, AQEvent.upd 2]).outs.headD (none, 0))
      ∈ (AQRun.run (fun (p : ℕ) (_ : ℕ) => p + 1) (AQRun.start 0 1)
      [AQEvent.enq 7, AQEvent.upd 0, AQEvent.upd 2]).outs := by
    rw [hrun]
    exact List.mem_cons_self _ _
  have hbound := c3_queue_serialization.2.2.2 ℕ ℕ (fun p _ => p + 1) 0 1
    [AQEvent.enq 7, AQEvent.upd 0, AQEvent.upd 2] hdur htl _ hmem
  exact ⟨hnc, hdur, htl,
    c3_queue_serialization.2.2.1 ℕ ℕ (fun p _ => p + 1) 0 1
      [AQEvent.enq 7, AQEvent.upd 0, AQEvent.upd 2] hnc,
    hbound.1, hbound.2⟩

/-- C4: Cancellation atomicity. `AnimationQueue.clear()` never invokes
`applyRotation` and leaves the piece array completely unchanged; after `clear()`
the queue is empty, the current move is null, and `isAnimating` is false; and over
any event trace (clears included) the piece store is exactly the fold of the
committed-move log — it reflects only fully-committed moves, never a partial one. -/
theorem c4_clear_atomicity :
    (∀ (M : Type) (s : AnimationQueue M),
      (AnimationQueue.clear s).queue = [] ∧ (AnimationQueue.clear s).current = none ∧
      (AnimationQueue.clear s).isAnimating = false) ∧
    (∀ (M P : Type) (apply : P → M → P) (r : AQRun M P),
      (AQRun.step apply r AQEvent.clearEv).pieces = r.pieces ∧
      (AQRun.step apply r AQEvent.clearEv).committedLog = r.committedLog) ∧
    (∀ (M P : Type) (apply : P → M → P) (p0 : P) (dur : ℚ) (evs : List (AQEvent M)),
      (AQRun.run apply (AQRun.start p0 dur) evs).pieces
        = (AQRun.run apply (AQRun.start p0 dur) evs).committedLog.foldl apply p0) := by
  refine ⟨fun hM s => ?_, fun hM hP apply r => ⟨rfl, rfl⟩, fun hM hP apply p0 dur evs => ?_⟩
  · exact ⟨rfl, rfl, by simp [AnimationQueue.clear, AnimationQueue.isAnimating]⟩
  · exact run_pieces_aux apply p0 evs (AQRun.start p0 dur) rfl

/-- C8: Defensive fallback of the cube's geometric sticker-color detection. For
every cube piece and requested face index, `getStickerColor` is a total function
that returns `null` for an out-of-range face or when the piece's centroid is not on
the requested face, and returns the requested face index unchanged — instead of
raising an error — whenever the extremal vertex set does not have exactly 4 members
or none of the three fixed vertex-index-bit splits is uniform over it. -/
theorem c8_sticker_defensive :
    ∀ (pc : CubePiece) (fi : Fin 6) (half : ℚ),
      (∀ face : ℕ, face > 5 → CubePuzzle.getStickerColor pc face half = none) ∧
      (|pc.m (FACE_INFO fi).1 - (FACE_INFO fi).2 * half| > 1/100 →
        CubePuzzle.getStickerColor pc fi.val half = none) ∧
      (¬ |pc.m (FACE_INFO fi).1 - (FACE_INFO fi).2 * half| > 1/100 →
        (cubeFaceVerts pc fi).length ≠ 4 →
        CubePuzzle.getStickerColor pc fi.val half = some fi.val) ∧
      (¬ |pc.m (FACE_INFO fi).1 - (FACE_INFO fi).2 * half| > 1/100 →
        ¬ uniformJS ((cubeFaceVerts pc fi).map (fun i => i.val / 4)) →
        ¬ uniformJS ((cubeFaceVerts pc fi).map (fun i => i.val % 4 / 2)) →
        ¬ uniformJS ((cubeFaceVerts pc fi).map (fun i => i.val % 2)) →
        CubePuzzle.getStickerColor pc fi.val half = some fi.val) := by
  intro pc fi half
  have h5 : ¬ fi.val > 5 := by omega
  refine ⟨fun face hf => ?_, fun hfar => ?_, fun hnear hlen => ?_,
    fun hnear hcx hcy hcz => ?_⟩
  · unfold CubePuzzle.getStickerColor
    rw [dif_pos hf]
  · unfold CubePuzzle.getStickerColor
    rw [dif_neg h5]
    simp only [Fin.eta]
    rw [if_pos hfar]
  · unfold CubePuzzle.getStickerColor
    rw [dif_neg h5]
    simp only [Fin.eta]
    rw [if_neg hnear, if_pos hlen]
  · unfold CubePuzzle.getStickerColor
    rw [dif_neg h5]
    simp only [Fin.eta]
    rw [if_neg hnear]
    by_cases hlen : (cubeFaceVerts pc fi).length ≠ 4
    · rw [if_pos hlen]
    · rw [if_neg hlen, if_neg hcx, if_neg hcy, if_neg hcz]

/-- Witness for C8: the theorem applied at concrete pieces — a piece off the
requested face (returns `null`), a degenerate piece whose 8 corners are all
extremal (count 8 ≠ 4, returns the requested face 3), a piece whose extremal 4-set
`{0, 3, 5, 6}` fails all three index-bit splits (returns the requested face 3), and
an out-of-range face index 9 (returns `null`). -/
theorem c8_sticker_defensive_witness :
    CubePuzzle.getStickerColor ⟨![0, 0, 0], fun _ _ => 0, fun _ => none⟩ 3 1 = none ∧
    CubePuzzle.getStickerColor ⟨![1, 0, 0], fun _ _ => 0, fun _ => none⟩ 3 1 = some 3 ∧
    CubePuzzle.getStickerColor ⟨![1, 0, 0], fun i _ => patB i, fun _ => none⟩ 3 1 = some 3 ∧
    CubePuzzle.getStickerColor ⟨![0, 0, 0], fun _ _ => 0, fun _ => none⟩ 9 1 = none := by
  have hfr : (List.finRange 8 : List (Fin 8)) = [0, 1, 2, 3, 4, 5, 6, 7] := by decide
  refine ⟨?_, ?_, ?_, ?_⟩
  · refine (c8_sticker_defensive ⟨![0, 0, 0], fun _ _ => 0, fun _ => none⟩ 3 1).2.1 ?_
    norm_num [FACE_INFO]
  · refine (c8_sticker_defensive ⟨![1, 0, 0], fun _ _ => 0, fun _ => none⟩ 3 1).2.2.1 ?_ ?_
    · norm_num [FACE_INFO]
    · have hex : cubeExtreme ⟨![1, 0, 0], fun _ _ => 0, fun _ => none⟩ 3 = 0 := by
        norm_num [cubeExtreme, FACE_INFO, vmax8]
      rw [cubeFaceVerts, hfr, hex]
      norm_num [List.filter]
  · have hex : cubeExtreme ⟨![1, 0, 0], fun i _ => patB i, fun _ => none⟩ 3 = 1 := by
      norm_num [cubeExtreme, FACE_INFO, vmax8, patB]
    have hfv : cubeFaceVerts ⟨![1, 0, 0], fun i _ => patB i, fun _ => none⟩ 3
        = [0, 3, 5, 6] := by
      rw [cubeFaceVerts, hfr, hex]
      norm_num [List.filter, patB]
    refine (c8_sticker_defensive ⟨![1, 0, 0], fun i _ => patB i, fun _ => none⟩ 3 1).2.2.2
      ?_ ?_ ?_ ?_
    · norm_num [FACE_INFO]
    · rw [hfv]; decide
    · rw [hfv]; decide
    · rw [hfv]; decide
  · exact (c8_sticker_defensive ⟨![0, 0, 0], fun _ _ => 0, fun _ => none⟩ 3 1).1 9 (by omega)

/-! ## Core lemmas: circle-circle intersection -/

theorem ciP1_dist_c1 (cx1 cy1 r1 cx2 cy2 r2 : ℝ)
    (hd : (1:ℝ)/1000 ≤ Real.sqrt ((cx2 - cx1) ^ 2 + (cy2 - cy1) ^ 2))
    (ha : ((r1 ^ 2 - r2 ^ 2 + Real.sqrt ((cx2 - cx1) ^ 2 + (cy2 - cy1) ^ 2) ^ 2) /
        (2 * Real.sqrt ((cx2 - cx1) ^ 2 + (cy2 - cy1) ^ 2))) ^ 2 ≤ r1 ^ 2) :
    Pt.dist2 (ciP1 cx1 cy1 r1 cx2 cy2 r2) ⟨cx1, cy1⟩ = r1 ^ 2 := by
  have hD : (0:ℝ) ≤ (cx2 - cx1) ^ 2 + (cy2 - cy1) ^ 2 := by positivity
  set dx := cx2 - cx1 with hdx
  set dy := cy2 - cy1 with hdy
  set d := Real.sqrt (dx ^ 2 + dy ^ 2) with hd_def
  have hd2 : d ^ 2 = dx ^ 2 + dy ^ 2 := Real.sq_sqrt hD
  have hdpos : 0 < d := lt_of_lt_of_le (by norm_num) hd
  have hdne : d ≠ 0 := ne_of_gt hdpos
  set a := (r1 ^ 2 - r2 ^ 2 + d ^ 2) / (2 * d) with ha_def
  have hmax : max 0 (r1 ^ 2 - a ^ 2) = r1 ^ 2 - a ^ 2 := max_eq_right (by linarith)
  set h := Real.sqrt (max 0 (r1 ^ 2 - a ^ 2)) with hh_def
  have hh2 : h ^ 2 = r1 ^ 2 - a ^ 2 := by
    rw [hh_def, Real.sq_sqrt (le_max_left _ _), hmax]
  show Pt.dist2 ⟨cx1 + a * dx / d + h * dy / d, cy1 + a * dy / d - h * dx / d⟩ ⟨cx1, cy1⟩
    = r1 ^ 2
  clear_value d a h
  rw [Pt.dist2]
  field_simp
  linear_combination (dx ^ 2 + dy ^ 2) * hh2 - r1 ^ 2 * hd2

theorem ciP2_dist_c1 (cx1 cy1 r1 cx2 cy2 r2 : ℝ)
    (hd : (1:ℝ)/1000 ≤ Real.sqrt ((cx2 - cx1) ^ 2 + (cy2 - cy1) ^ 2))
    (ha : ((r1 ^ 2 - r2 ^ 2 + Real.sqrt ((cx2 - cx1) ^ 2 + (cy2 - cy1) ^ 2) ^ 2) /
        (2 * Real.sqrt ((cx2 - cx1) ^ 2 + (cy2 - cy1) ^ 2))) ^ 2 ≤ r1 ^ 2) :
    Pt.dist2 (ciP2 cx1 cy1 r1 cx2 cy2 r2) ⟨cx1, cy1⟩ = r1 ^ 2 := by
  have hD : (0:ℝ) ≤ (cx2 - cx1) ^ 2 + (cy2 - cy1) ^ 2 := by positivity
  set dx := cx2 - cx1 with hdx
  set dy := cy2 - cy1 with hdy
  set d := Real.sqrt (dx ^ 2 + dy ^ 2) with hd_def
  have hd2 : d ^ 2 = dx ^ 2 + dy ^ 2 := Real.sq_sqrt hD
  have hdpos : 0 < d := lt_of_lt_of_le (by norm_num) hd
  have hdne : d ≠ 0 := ne_of_gt hdpos
  set a := (r1 ^ 2 - r2 ^ 2 + d ^ 2) / (2 * d) with ha_def
  have hmax : max 0 (r1 ^ 2 - a ^ 2) = r1 ^ 2 - a ^ 2 := max_eq_right (by linarith)
  set h := Real.sqrt (max 0 (r1 ^ 2 - a ^ 2)) with hh_def
  have hh2 : h ^ 2 = r1 ^ 2 - a ^ 2 := by
    rw [hh_def, Real.sq_sqrt (le_max_left _ _), hmax]
  show Pt.dist2 ⟨cx1 + a * dx / d - h * dy / d, cy1 + a * dy / d + h * dx / d⟩ ⟨cx1, cy1⟩
    = r1 ^ 2
  clear_value d a h
  rw [Pt.dist2]
  field_simp
  linear_combination (dx ^ 2 + dy ^ 2) * hh2 - r1 ^ 2 * hd2

theorem ciP1_dist_c2 (cx1 cy1 r1 cx2 cy2 r2 : ℝ)
    (hd : (1:ℝ)/1000 ≤ Real.sqrt ((cx2 - cx1) ^ 2 + (cy2 - cy1) ^ 2))
    (ha : ((r1 ^ 2 - r2 ^ 2 + Real.sqrt ((cx2 - cx1) ^ 2 + (cy2 - cy1) ^ 2) ^ 2) /
        (2 * Real.sqrt ((cx2 - cx1) ^ 2 + (cy2 - cy1) ^ 2))) ^ 2 ≤ r1 ^ 2) :
    Pt.dist2 (ciP1 cx1 cy1 r1 cx2 cy2 r2) ⟨cx2, cy2⟩ = r2 ^ 2 := by
  have hD : (0:ℝ) ≤ (cx2 - cx1) ^ 2 + (cy2 - cy1) ^ 2 := by positivity
  set dx := cx2 - cx1 with hdx
  set dy := cy2 - cy1 with hdy
  set d := Real.sqrt (dx ^ 2 + dy ^ 2) with hd_def
  have hd2 : d ^ 2 = dx ^ 2 + dy ^ 2 := Real.sq_sqrt hD
  have hdpos : 0 < d := lt_of_lt_of_le (by norm_num) hd
  have hdne : d ≠ 0 := ne_of_gt hdpos
  set a := (r1 ^ 2 - r2 ^ 2 + d ^ 2) / (2 * d) with ha_def
  have haa : a * (2 * d) = r1 ^ 2 - r2 ^ 2 + d ^ 2 := by
    rw [ha_def]
    field_simp
  have hmax : max 0 (r1 ^ 2 - a ^ 2) = r1 ^ 2 - a ^ 2 := max_eq_right (by linarith)
  set h := Real.sqrt (max 0 (r1 ^ 2 - a ^ 2)) with hh_def
  have hh2 : h ^ 2 = r1 ^ 2 - a ^ 2 := by
    rw [hh_def, Real.sq_sqrt (le_max_left _ _), hmax]
  have hc2 : cx2 = cx1 + dx := by rw [hdx]; ring
  have hcy2 : cy2 = cy1 + dy := by rw [hdy]; ring
  show Pt.dist2 ⟨cx1 + a * dx / d + h * dy / d, cy1 + a * dy / d - h * dx / d⟩ ⟨cx2, cy2⟩
    = r2 ^ 2
  rw [hc2, hcy2]
  clear_value d a h
  rw [Pt.dist2]
  field_simp
  linear_combination (dx ^ 2 + dy ^ 2) * hh2 - (dx ^ 2 + dy ^ 2) * haa - r2 ^ 2 * hd2

theorem ciP2_dist_c2 (cx1 cy1 r1 cx2 cy2 r2 : ℝ)
    (hd : (1:ℝ)/1000 ≤ Real.sqrt ((cx2 - cx1) ^ 2 + (cy2 - cy1) ^ 2))
    (ha : ((r1 ^ 2 - r2 ^ 2 + Real.sqrt ((cx2 - cx1) ^ 2 + (cy2 - cy1) ^ 2) ^ 2) /
        (2 * Real.sqrt ((cx2 - cx1) ^ 2 + (cy2 - cy1) ^ 2))) ^ 2 ≤ r1 ^ 2) :
    Pt.dist2 (ciP2 cx1 cy1 r1 cx2 cy2 r2) ⟨cx2, cy2⟩ = r2 ^ 2 := by
  have hD : (0:ℝ) ≤ (cx2 - cx1) ^ 2 + (cy2 - cy1) ^ 2 := by positivity
  set dx := cx2 - cx1 with hdx
  set dy := cy2 - cy1 with hdy
  set d := Real.sqrt (dx ^ 2 + dy ^ 2) with hd_def
  have hd2 : d ^ 2 = dx ^ 2 + dy ^ 2 := Real.sq_sqrt hD
  have hdpos : 0 < d := lt_of_lt_of_le (by norm_num) hd
  have hdne : d ≠ 0 := ne_of_gt hdpos
  set a := (r1 ^ 2 - r2 ^ 2 + d ^ 2) / (2 * d) with ha_def
  have haa : a * (2 * d) = r1 ^ 2 - r2 ^ 2 + d ^ 2 := by
    rw [ha_def]
    field_simp
  have hmax : max 0 (r1 ^ 2 - a ^ 2) = r1 ^ 2 - a ^ 2 := max_eq_right (by linarith)
  set h := Real.sqrt (max 0 (r1 ^ 2 - a ^ 2)) with hh_def
  have hh2 : h ^ 2 = r1 ^ 2 - a ^ 2 := by
    rw [hh_def, Real.sq_sqrt (le_max_left _ _), hmax]
  have hc2 : cx2 = cx1 + dx := by rw [hdx]; ring
  have hcy2 : cy2 = cy1 + dy := by rw [hdy]; ring
  show Pt.dist2 ⟨cx1 + a * dx / d - h * dy / d, cy1 + a * dy / d + h * dx / d⟩ ⟨cx2, cy2⟩
    = r2 ^ 2
  rw [hc2, hcy2]
  clear_value d a h
  rw [Pt.dist2]
  field_simp
  linear_combination (dx ^ 2 + dy ^ 2) * hh2 - (dx ^ 2 + dy ^ 2) * haa - r2 ^ 2 * hd2

theorem circleIntersection_mem (cx1 cy1 r1 cx2 cy2 r2 CX CY : ℝ) (pickInner : Bool)
    (hnd : ¬ Real.sqrt ((cx2 - cx1) ^ 2 + (cy2 - cy1) ^ 2) < 1/1000) :
    circleIntersection cx1 cy1 r1 cx2 cy2 r2 pickInner CX CY = ciP1 cx1 cy1 r1 cx2 cy2 r2 ∨
    circleIntersection cx1 cy1 r1 cx2 cy2 r2 pickInner CX CY = ciP2 cx1 cy1 r1 cx2 cy2 r2 := by
  unfold circleIntersection
  rw [if_neg hnd]
  cases pickInner <;> simp only [Bool.false_eq_true, if_true, if_false] <;> split
  · right; rfl
  · left; rfl
  · left; rfl
  · right; rfl

theorem circleIntersection_pick (cx1 cy1 r1 cx2 cy2 r2 CX CY : ℝ)
    (hnd : ¬ Real.sqrt ((cx2 - cx1) ^ 2 + (cy2 - cy1) ^ 2) < 1/1000) :
    Pt.dist2 (circleIntersection cx1 cy1 r1 cx2 cy2 r2 true CX CY) ⟨CX, CY⟩
      ≤ Pt.dist2 (circleIntersection cx1 cy1 r1 cx2 cy2 r2 false CX CY) ⟨CX, CY⟩ := by
  unfold circleIntersection
  rw [if_neg hnd]
  simp only [Bool.false_eq_true, if_true, if_false]
  split
  · next hlt => exact le_of_lt hlt
  · next hge => exact le_of_not_lt hge

/-- C6 (amended): Circle-intersection correctness. When the two circles genuinely
intersect — the center distance is at least 0.001 and the radical-line offset `a`
satisfies `a² ≤ r1²` (a nonnegative half-chord discriminant) — the returned point is
at distance exactly `r1` from `c1` and `r2` from `c2`; of the two intersection
candidates, `pickInner` returns one no farther from the canvas center than the
`¬pickInner` pick; and nearly-coincident centers (distance below 0.001) return the
first circle's center. -/
theorem c6_circle_intersection_amended :
    ∀ (cx1 cy1 r1 cx2 cy2 r2 CX CY : ℝ) (pickInner : Bool),
      (Real.sqrt ((cx2 - cx1) ^ 2 + (cy2 - cy1) ^ 2) < 1/1000 →
        circleIntersection cx1 cy1 r1 cx2 cy2 r2 pickInner CX CY = ⟨cx1, cy1⟩) ∧
      (1/1000 ≤ Real.sqrt ((cx2 - cx1) ^ 2 + (cy2 - cy1) ^ 2) →
        ((r1 ^ 2 - r2 ^ 2 + Real.sqrt ((cx2 - cx1) ^ 2 + (cy2 - cy1) ^ 2) ^ 2) /
            (2 * Real.sqrt ((cx2 - cx1) ^ 2 + (cy2 - cy1) ^ 2))) ^ 2 ≤ r1 ^ 2 →
        Pt.dist2 (circleIntersection cx1 cy1 r1 cx2 cy2 r2 pickInner CX CY) ⟨cx1, cy1⟩
            = r1 ^ 2 ∧
        Pt.dist2 (circleIntersection cx1 cy1 r1 cx2 cy2 r2 pickInner CX CY) ⟨cx2, cy2⟩
            = r2 ^ 2 ∧
        Pt.dist2 (circleIntersection cx1 cy1 r1 cx2 cy2 r2 true CX CY) ⟨CX, CY⟩
          ≤ Pt.dist2 (circleIntersection cx1 cy1 r1 cx2 cy2 r2 false CX CY) ⟨CX, CY⟩) := by
  intro cx1 cy1 r1 cx2 cy2 r2 CX CY pickInner
  constructor
  · intro hlt
    unfold circleIntersection
    rw [if_pos hlt]
  · intro hd ha
    have hnd : ¬ Real.sqrt ((cx2 - cx1) ^ 2 + (cy2 - cy1) ^ 2) < 1/1000 := not_lt.mpr hd
    refine ⟨?_, ?_, circleIntersection_pick cx1 cy1 r1 cx2 cy2 r2 CX CY hnd⟩
    · rcases circleIntersection_mem cx1 cy1 r1 cx2 cy2 r2 CX CY pickInner hnd with hm | hm
      · rw [hm]; exact ciP1_dist_c1 cx1 cy1 r1 cx2 cy2 r2 hd ha
      · rw [hm]; exact ciP2_dist_c1 cx1 cy1 r1 cx2 cy2 r2 hd ha
    · rcases circleIntersection_mem cx1 cy1 r1 cx2 cy2 r2 CX CY pickInner hnd with hm | hm
      · rw [hm]; exact ciP1_dist_c2 cx1 cy1 r1 cx2 cy2 r2 hd ha
      · rw [hm]; exact ciP2_dist_c2 cx1 cy1 r1 cx2 cy2 r2 hd ha

/-- Witness for C6 (amended): the circles centered `(0,0)` and `(8,0)` with radii 5
intersect (center distance 8, offset `a = 4`, `a² = 16 ≤ 25`); the returned point is
at squared distance 25 from both centers. -/
theorem c6_circle_intersection_amended_witness :
    ((1:ℝ)/1000 ≤ Real.sqrt (((8:ℝ) - 0) ^ 2 + ((0:ℝ) - 0) ^ 2)) ∧
    ((((5:ℝ) ^ 2 - 5 ^ 2 + Real.sqrt (((8:ℝ) - 0) ^ 2 + ((0:ℝ) - 0) ^ 2) ^ 2) /
        (2 * Real.sqrt (((8:ℝ) - 0) ^ 2 + ((0:ℝ) - 0) ^ 2))) ^ 2 ≤ (5:ℝ) ^ 2) ∧
    Pt.dist2 (circleIntersection 0 0 5 8 0 5 true 100 100) ⟨0, 0⟩ = 5 ^ 2 ∧
    Pt.dist2 (circleIntersection 0 0 5 8 0 5 true 100 100) ⟨8, 0⟩ = 5 ^ 2 := by
  have h8 : Real.sqrt (((8:ℝ) - 0) ^ 2 + ((0:ℝ) - 0) ^ 2) = 8 := by
    rw [show ((8:ℝ) - 0) ^ 2 + ((0:ℝ) - 0) ^ 2 = 8 ^ 2 by norm_num]
    exact Real.sqrt_sq (by norm_num)
  have hd : (1:ℝ)/1000 ≤ Real.sqrt (((8:ℝ) - 0) ^ 2 + ((0:ℝ) - 0) ^ 2) := by
    rw [h8]; norm_num
  have ha : (((5:ℝ) ^ 2 - 5 ^ 2 + Real.sqrt (((8:ℝ) - 0) ^ 2 + ((0:ℝ) - 0) ^ 2) ^ 2) /
      (2 * Real.sqrt (((8:ℝ) - 0) ^ 2 + ((0:ℝ) - 0) ^ 2))) ^ 2 ≤ (5:ℝ) ^ 2 := by
    rw [h8]; norm_num
  have H := (c6_circle_intersection_amended 0 0 5 8 0 5 100 100 true).2 hd ha
  exact ⟨hd, ha, H.1, H.2.1⟩

/-- Counterexample for C6 as stated: for the disjoint circles `c1 = (0,0), r1 = 1`
and `c2 = (10,0), r2 = 1`, `circleIntersection` returns `(5, 0)`, whose distance
from `c1` is 5, not `r1 = 1` within any epsilon (here `ε = 0.01`); the "for all
centers and radii" distance clause is false on the code. -/
theorem c6_counterexample :
    circleIntersection 0 0 1 10 0 1 false 0 0 = ⟨5, 0⟩ ∧
    Real.sqrt (Pt.dist2 (circleIntersection 0 0 1 10 0 1 false 0 0) ⟨0, 0⟩) = 5 ∧
    ¬ |Real.sqrt (Pt.dist2 (circleIntersection 0 0 1 10 0 1 false 0 0) ⟨0, 0⟩) - 1|
      ≤ 1/100 := by
  have h100 : Real.sqrt (((10:ℝ) - 0) ^ 2 + ((0:ℝ) - 0) ^ 2) = 10 := by
    rw [show ((10:ℝ) - 0) ^ 2 + ((0:ℝ) - 0) ^ 2 = 10 ^ 2 by norm_num]
    exact Real.sqrt_sq (by norm_num)
  have hmax : max (0:ℝ) (1 ^ 2 - ((1 ^ 2 - 1 ^ 2 + 10 ^ 2) / (2 * 10)) ^ 2) = 0 := by
    norm_num
  have hp1 : ciP1 0 0 1 10 0 1 = ⟨5, 0⟩ := by
    rw [ciP1]
    simp only [h100, hmax, Real.sqrt_zero]
    norm_num
  have hp2 : ciP2 0 0 1 10 0 1 = ⟨5, 0⟩ := by
    rw [ciP2]
    simp only [h100, hmax, Real.sqrt_zero]
    norm_num
  have hci : circleIntersection 0 0 1 10 0 1 false 0 0 = ⟨5, 0⟩ := by
    rw [circleIntersection]
    simp only [h100, hp1, hp2]
    norm_num
  refine ⟨hci, ?_, ?_⟩
  · rw [hci]
    rw [show Pt.dist2 ⟨5, 0⟩ ⟨0, 0⟩ = 5 ^ 2 by rw [Pt.dist2]; norm_num]
    exact Real.sqrt_sq (by norm_num)
  · rw [hci]
    rw [show Pt.dist2 ⟨5, 0⟩ ⟨0, 0⟩ = 5 ^ 2 by rw [Pt.dist2]; norm_num]
    rw [Real.sqrt_sq (by norm_num : (0:ℝ) ≤ 5)]
    norm_num

/-- C10: Totality of `circleIntersection` on non-intersecting circles. For every
input whose center distance is at least 0.001 — even when the circles do not
geometrically intersect — the guarded-primitive version takes no square root of a
negative number and performs no division by zero (it returns `some` point), and
that point is exactly what the unguarded code computes: the `max(0, ·)` clamp and
the `d < 0.001` early return make the function total with no error branch. -/
theorem c10_checked_totality :
    ∀ (cx1 cy1 r1 cx2 cy2 r2 CX CY : ℝ) (pickInner : Bool),
      (1:ℝ)/1000 ≤ Real.sqrt ((cx2 - cx1) ^ 2 + (cy2 - cy1) ^ 2) →
      circleIntersectionChecked cx1 cy1 r1 cx2 cy2 r2 pickInner CX CY
        = some (circleIntersection cx1 cy1 r1 cx2 cy2 r2 pickInner CX CY) := by
  intro cx1 cy1 r1 cx2 cy2 r2 CX CY pickInner hd
  have hD : (0:ℝ) ≤ (cx2 - cx1) ^ 2 + (cy2 - cy1) ^ 2 := by positivity
  have hnd : ¬ Real.sqrt ((cx2 - cx1) ^ 2 + (cy2 - cy1) ^ 2) < 1/1000 := not_lt.mpr hd
  have hdpos : (0:ℝ) < Real.sqrt ((cx2 - cx1) ^ 2 + (cy2 - cy1) ^ 2) :=
    lt_of_lt_of_le (by norm_num) hd
  have hdne : Real.sqrt ((cx2 - cx1) ^ 2 + (cy2 - cy1) ^ 2) ≠ 0 := ne_of_gt hdpos
  have h2dne : 2 * Real.sqrt ((cx2 - cx1) ^ 2 + (cy2 - cy1) ^ 2) ≠ 0 := by positivity
  have hmaxnn : ¬ max (0:ℝ) (r1 ^ 2 - ((r1 ^ 2 - r2 ^ 2 +
      Real.sqrt ((cx2 - cx1) ^ 2 + (cy2 - cy1) ^ 2) ^ 2) /
      (2 * Real.sqrt ((cx2 - cx1) ^ 2 + (cy2 - cy1) ^ 2))) ^ 2) < 0 :=
    not_lt.mpr (le_max_left _ _)
  simp only [circleIntersectionChecked, circleIntersection, ciP1, ciP2, sqrtChecked,
    divChecked, if_neg (not_lt.mpr hD), if_neg hnd, if_neg hdne, if_neg h2dne,
    if_neg hmaxnn, Option.some_bind]

/-- Witness for C10: the disjoint circles `(0,0), r = 1` and `(10,0), r = 1`
(center distance 10, far beyond `r1 + r2 = 2`): the guarded computation still
returns `some` point, equal to the unguarded result. -/
theorem c10_checked_totality_witness :
    ((1:ℝ)/1000 ≤ Real.sqrt (((10:ℝ) - 0) ^ 2 + ((0:ℝ) - 0) ^ 2)) ∧
    circleIntersectionChecked 0 0 1 10 0 1 true 0 0
      = some (circleIntersection 0 0 1 10 0 1 true 0 0) := by
  have h100 : Real.sqrt (((10:ℝ) - 0) ^ 2 + ((0:ℝ) - 0) ^ 2) = 10 := by
    rw [show ((10:ℝ) - 0) ^ 2 + ((0:ℝ) - 0) ^ 2 = 10 ^ 2 by norm_num]
    exact Real.sqrt_sq (by norm_num)
  have hd : (1:ℝ)/1000 ≤ Real.sqrt (((10:ℝ) - 0) ^ 2 + ((0:ℝ) - 0) ^ 2) := by
    rw [h100]; norm_num
  exact ⟨hd, c10_checked_totality 0 0 1 10 0 1 0 0 true hd⟩

/-- C7 (amended): Majority-vote arc correction. For any set of nonzero in-flight
signed arc deltas, each normalized to `(-π, π]`: the correction maps each delta
through "add 2π if negative" when the strict majority is positive and through
"subtract 2π if positive" otherwise, so deltas agreeing with the majority sign are
unchanged; afterwards all corrected deltas share the majority's sign; and a
unanimous input set is left entirely unchanged. -/
theorem c7_majority_vote_amended :
    ∀ (deltas : List ℝ),
      (∀ d ∈ deltas, -Real.pi < d ∧ d ≤ Real.pi) →
      (∀ d ∈ deltas, d ≠ 0) →
      (majorityPositive deltas →
        majorityCorrect deltas
          = deltas.map (fun d => if d < 0 then d + 2 * Real.pi else d)) ∧
      (¬ majorityPositive deltas →
        majorityCorrect deltas
          = deltas.map (fun d => if 0 < d then d - 2 * Real.pi else d)) ∧
      (majorityPositive deltas → ∀ x ∈ majorityCorrect deltas, 0 < x) ∧
      (¬ majorityPositive deltas → ∀ x ∈ majorityCorrect deltas, x < 0) ∧
      ((∀ d ∈ deltas, 0 < d) → majorityCorrect deltas = deltas) ∧
      ((∀ d ∈ deltas, d < 0) → majorityCorrect deltas = deltas) := by
  intro deltas hrange h0
  have hpi := Real.pi_pos
  refine ⟨fun hmp => ?_, fun hmp => ?_, fun hmp x hx => ?_, fun hmp x hx => ?_,
    fun hpos => ?_, fun hneg => ?_⟩
  · unfold majorityCorrect
    rw [if_pos hmp]
  · unfold majorityCorrect
    rw [if_neg hmp]
  · unfold majorityCorrect at hx
    rw [if_pos hmp] at hx
    obtain ⟨d, hd, rfl⟩ := List.mem_map.mp hx
    by_cases hdneg : d < 0
    · rw [if_pos hdneg]
      have := (hrange d hd).1
      linarith
    · rw [if_neg hdneg]
      exact lt_of_le_of_ne (not_lt.mp hdneg) (Ne.symm (h0 d hd))
  · unfold majorityCorrect at hx
    rw [if_neg hmp] at hx
    obtain ⟨d, hd, rfl⟩ := List.mem_map.mp hx
    by_cases hdpos : 0 < d
    · rw [if_pos hdpos]
      have := (hrange d hd).2
      linarith
    · rw [if_neg hdpos]
      exact lt_of_le_of_ne (not_lt.mp hdpos) (h0 d hd)
  · by_cases hnil : deltas = []
    · subst hnil
      unfold majorityCorrect
      split <;> rfl
    · have hf : deltas.filter (fun d => decide (0 < d)) = deltas :=
        List.filter_eq_self.mpr (fun a ha => decide_eq_true (hpos a ha))
      have hlen : 0 < deltas.length := List.length_pos.mpr hnil
      have hmp : majorityPositive deltas := by
        unfold majorityPositive
        rw [hf]
        have h1 : (0:ℚ) < (deltas.length : ℚ) := by exact_mod_cast hlen
        linarith
      unfold majorityCorrect
      rw [if_pos hmp]
      have hmap : deltas.map (fun d => if d < 0 then d + 2 * Real.pi else d)
          = deltas.map id :=
        List.map_congr_left (fun a ha => if_neg (not_lt.mpr (le_of_lt (hpos a ha))))
      rw [hmap, List.map_id]
  · by_cases hnil : deltas = []
    · subst hnil
      unfold majorityCorrect
      split <;> rfl
    · have hf : deltas.filter (fun d => decide (0 < d)) = [] :=
        List.filter_eq_nil_iff.mpr (fun a ha => by
          simp only [decide_eq_true_eq]
          exact not_lt.mpr (le_of_lt (hneg a ha)))
      have hmp : ¬ majorityPositive deltas := by
        unfold majorityPositive
        rw [hf]
        simp only [List.length_nil, Nat.cast_zero]
        have h1 : (0:ℚ) ≤ (deltas.length : ℚ) / 2 := by positivity
        exact not_lt.mpr h1
      unfold majorityCorrect
      rw [if_neg hmp]
      have hmap : deltas.map (fun d => if 0 < d then d - 2 * Real.pi else d)
          = deltas.map id :=
        List.map_congr_left (fun a ha => if_neg (not_lt.mpr (le_of_lt (hneg a ha))))
      rw [hmap, List.map_id]

/-- Witness for C7 (amended): the theorem applied at the concrete normalized
nonzero deltas `[1, 1, -1]` — the strict majority is positive, the lone negative
delta is shifted by `+2π` to `-1 + 2π > 0`, the agreeing deltas are unchanged. -/
theorem c7_majority_vote_amended_witness :
    majorityPositive [(1:ℝ), 1, -1] ∧
    majorityCorrect [(1:ℝ), 1, -1] = [1, 1, -1 + 2 * Real.pi] ∧
    (0:ℝ) < -1 + 2 * Real.pi := by
  have h3 := Real.pi_gt_three
  have hrange : ∀ d ∈ [(1:ℝ), 1, -1], -Real.pi < d ∧ d ≤ Real.pi := by
    intro d hd
    fin_cases hd <;> constructor <;> linarith
  have h0 : ∀ d ∈ [(1:ℝ), 1, -1], d ≠ 0 := by
    intro d hd
    fin_cases hd <;> norm_num
  have hf : List.filter (fun d => decide ((0:ℝ) < d)) [(1:ℝ), 1, -1] = [1, 1] := by
    norm_num [List.filter]
  have hmp : majorityPositive [(1:ℝ), 1, -1] := by
    unfold majorityPositive
    rw [hf]
    norm_num
  have hmc := (c7_majority_vote_amended [(1:ℝ), 1, -1] hrange h0).1 hmp
  have hmap : [(1:ℝ), 1, -1].map (fun d => if d < 0 then d + 2 * Real.pi else d)
      = [1, 1, -1 + 2 * Real.pi] := by
    norm_num [List.map]
  exact ⟨hmp, by rw [hmc, hmap], by linarith⟩

/-- Counterexample for C7 as stated: the delta set `[0, -1]` is normalized to
`(-π, π]`, its majority is not positive (zero positive deltas), the correction
leaves it unchanged, yet not all corrected deltas carry the majority's (negative)
sign — the zero delta stays zero. The claim's "all corrected deltas share the
majority's sign" clause is false on the code for inputs containing a zero delta. -/
theorem c7_counterexample :
    (∀ d ∈ [(0:ℝ), -1], -Real.pi < d ∧ d ≤ Real.pi) ∧
    ¬ majorityPositive [(0:ℝ), -1] ∧
    majorityCorrect [(0:ℝ), -1] = [(0:ℝ), -1] ∧
    ¬ (∀ x ∈ majorityCorrect [(0:ℝ), -1], x < 0) := by
  have h3 := Real.pi_gt_three
  have hrange : ∀ d ∈ [(0:ℝ), -1], -Real.pi < d ∧ d ≤ Real.pi := by
    intro d hd
    fin_cases hd <;> constructor <;> linarith
  have hf : List.filter (fun d => decide ((0:ℝ) < d)) [(0:ℝ), -1] = [] := by
    norm_num [List.filter]
  have hmp : ¬ majorityPositive [(0:ℝ), -1] := by
    unfold majorityPositive
    rw [hf]
    norm_num
  have hmc : majorityCorrect [(0:ℝ), -1] = [(0:ℝ), -1] := by
    unfold majorityCorrect
    rw [if_neg hmp]
    norm_num [List.map]
  refine ⟨hrange, hmp, hmc, fun hall => ?_⟩
  have h00 : (0:ℝ) ∈ majorityCorrect [(0:ℝ), -1] := by
    rw [hmc]
    exact List.mem_cons_self _ _
  exact lt_irrefl 0 (hall 0 h00)
